import Mathlib

/-!
Verification of the TurboTools map parser and converter (`TurboMap.py`).

The development shallowly embeds the parser pipeline: the line tokenizer,
the section reader `__readSection`, the bound reader `__readTurbineSection`,
the loader `readMapGT`, the constructor `__init__`, the scale setter
`scaleMap`, and the numeric serialization performed by `writeMap` through
`numpy.array2string(..., precision=5, floatmode="fixed")`.

Machine floats are modelled by exact rationals.  Because `Rat.add`,
`Rat.mul` and `Rat.inv` are `@[irreducible]` in this toolchain, the
embedding computes with kernel-reducible wrappers (`qAdd`, `qMul`, ...)
built on `mkRat`; each wrapper is proved equal to the standard field
operation, so algebraic reasoning happens over ordinary `ℚ` arithmetic
while concrete runs still evaluate by `decide`.
-/

namespace TurboTools

/-- Kernel-reducible addition on `ℚ` (same value as `a + b`). -/
def qAdd (a b : ℚ) : ℚ := mkRat (a.num * b.den + b.num * a.den) (a.den * b.den)

/-- Kernel-reducible negation on `ℚ` (same value as `-a`). -/
def qNeg (a : ℚ) : ℚ := mkRat (-a.num) a.den

/-- Kernel-reducible subtraction on `ℚ` (same value as `a - b`). -/
def qSub (a b : ℚ) : ℚ := qAdd a (qNeg b)

/-- Kernel-reducible multiplication on `ℚ` (same value as `a * b`). -/
def qMul (a b : ℚ) : ℚ := mkRat (a.num * b.num) (a.den * b.den)

/-- Kernel-reducible division on `ℚ` (same value as `a / b`, with `x / 0 = 0`). -/
def qDiv (a b : ℚ) : ℚ := Rat.divInt (a.num * b.den) (b.num * a.den)

/-- Kernel-reducible absolute value on `ℚ`. -/
def qAbs (a : ℚ) : ℚ := mkRat a.num.natAbs a.den

/-- Kernel-reducible floor on `ℚ`. -/
def qFloor (a : ℚ) : ℤ := a.num / a.den

/-- Kernel-reducible round-half-up on `ℚ` (same value as `round a`). -/
def qRound (a : ℚ) : ℤ := qFloor (qAdd a (mkRat 1 2))

/-- Kernel-reducible power of ten with integer exponent. -/
def qPowZ : ℤ → ℚ
  | Int.ofNat n => mkRat ((10 : ℤ) ^ n) 1
  | Int.negSucc n => mkRat 1 (10 ^ (n + 1))

lemma qden_ne (a : ℚ) : ((a.den : ℚ)) ≠ 0 := Nat.cast_ne_zero.mpr a.den_nz

lemma qnum_eq (a : ℚ) : ((a.num : ℚ)) = a * (a.den : ℚ) := by
  calc ((a.num : ℚ)) = ((a.num : ℚ)) / (a.den : ℚ) * (a.den : ℚ) := by
        rw [div_mul_cancel₀]
        exact qden_ne a
    _ = a * (a.den : ℚ) := by rw [Rat.num_div_den a]

lemma mkRat_cast (n : ℤ) (d : ℕ) : mkRat n d = ((n : ℚ)) / ((d : ℚ)) := by
  rw [Rat.mkRat_eq_divInt, Rat.divInt_eq_div]
  norm_num

lemma qAdd_eq (a b : ℚ) : qAdd a b = a + b := by
  rw [qAdd, mkRat_cast]
  push_cast
  rw [qnum_eq a, qnum_eq b]
  rw [div_eq_iff (by positivity : ((a.den : ℚ)) * (b.den : ℚ) ≠ 0)]
  ring

lemma qNeg_eq (a : ℚ) : qNeg a = -a := by
  rw [qNeg, mkRat_cast]
  push_cast
  rw [qnum_eq a]
  field_simp

lemma qSub_eq (a b : ℚ) : qSub a b = a - b := by
  rw [qSub, qAdd_eq, qNeg_eq]
  ring

lemma qMul_eq (a b : ℚ) : qMul a b = a * b := by
  rw [qMul, mkRat_cast]
  push_cast
  rw [qnum_eq a, qnum_eq b]
  rw [div_eq_iff (by positivity : ((a.den : ℚ)) * (b.den : ℚ) ≠ 0)]
  ring

lemma qDiv_eq (a b : ℚ) : qDiv a b = a / b := by
  by_cases hb : b = 0
  · subst hb
    rw [qDiv]
    norm_num
  · rw [qDiv, Rat.divInt_eq_div]
    have hbn : ((b.num : ℚ)) ≠ 0 := by
      exact_mod_cast Rat.num_ne_zero.mpr hb
    push_cast
    rw [div_eq_div_iff (mul_ne_zero hbn (qden_ne a)) hb, qnum_eq a, qnum_eq b]
    ring

lemma qAbs_eq (a : ℚ) : qAbs a = |a| := by
  rw [qAbs, mkRat_cast]
  conv_rhs => rw [← Rat.num_div_den a]
  rw [abs_div]
  congr 1
  · push_cast [Int.cast_natAbs]
    rfl
  · rw [abs_of_pos]
    exact_mod_cast a.den_pos

lemma qFloor_eq (a : ℚ) : qFloor a = ⌊a⌋ := by
  rw [qFloor, Rat.floor_def]

lemma qRound_eq (a : ℚ) : qRound a = round a := by
  rw [qRound, qFloor_eq, qAdd_eq, round_eq]
  norm_num [mkRat_cast]

lemma qPowZ_eq (e : ℤ) : qPowZ e = (10 : ℚ) ^ e := by
  cases e with
  | ofNat n =>
    rw [qPowZ, mkRat_cast]
    push_cast
    rw [Int.ofNat_eq_coe, zpow_natCast]
    norm_num
  | negSucc n =>
    rw [qPowZ, mkRat_cast, zpow_negSucc]
    push_cast
    rw [one_div]

example : qAdd (mkRat 1 2) (mkRat 1 3) = mkRat 5 6 := by decide
example : qDiv 7 2 = mkRat 7 2 := by decide
example : qRound (mkRat 123456789 100000) = 1235 := by decide

/-!
## Tokenizer

`__readSection` and `__readTurbineSection` both turn each raw line into
numbers by `tline.replace(",", ".")`, `tline.split()` (split on runs of
whitespace, dropping empty tokens) and `astype(float)`; a token that is
not a valid float literal raises, modelled by `Option`.  Lines are
`List Char`.
-/

/-- The decimal-separator normalization `tline.replace(",", ".")`, per character. -/
def commaToDot (c : Char) : Char := if c = ',' then '.' else c

/-- The whitespace characters `str.split()` splits on. -/
def pySpace (c : Char) : Bool :=
  c = ' ' || c = '\t' || c = '\n' || c = '\r' || c = '\x0b' || c = '\x0c'

/-- `tline.split()`: split on runs of whitespace, dropping empty tokens. -/
def splitWS (l : List Char) : List (List Char) :=
  (l.splitOnP pySpace).filter (fun t => !t.isEmpty)

/-- Numeric value of a digit character. -/
def digOf (c : Char) : ℕ := c.toNat - 48

/-- Consume a maximal run of leading digits, returning their values and the rest. -/
def takeDigs : List Char → List ℕ × List Char
  | [] => ([], [])
  | c :: cs =>
    if c.isDigit then
      let p := takeDigs cs
      (digOf c :: p.1, p.2)
    else ([], c :: cs)

/-- The natural number denoted by a most-significant-first digit list. -/
def natOfDigs (ds : List ℕ) : ℕ := ds.foldl (fun a d => a * 10 + d) 0

/-- Parse the part of a float literal after `e`/`E`: optional sign, then digits. -/
def parseExpPart (r : List Char) : Option ℤ :=
  let s : ℤ × List Char :=
    match r with
    | '-' :: rr => (-1, rr)
    | '+' :: rr => (1, rr)
    | _ => (1, r)
  match takeDigs s.2 with
  | ([], _) => none
  | (ds, []) => some (s.1 * (natOfDigs ds : ℤ))
  | (_, _ :: _) => none

/-- Model of Python `float(token)` on the decimal grammar
`[+-]? (digits [. digits?] | . digits) ([eE] [+-]? digits)?`
(the special literals `inf`/`nan` never occur in map files and are not modelled). -/
def parseFloat (t : List Char) : Option ℚ :=
  let s : ℤ × List Char :=
    match t with
    | '-' :: r => (-1, r)
    | '+' :: r => (1, r)
    | _ => (1, t)
  let ip := takeDigs s.2
  let fp : List ℕ × List Char :=
    match ip.2 with
    | '.' :: r => takeDigs r
    | _ => ([], ip.2)
  if ip.1.isEmpty && fp.1.isEmpty then none
  else
    let base : ℚ :=
      qAdd ((natOfDigs ip.1 : ℚ)) (qDiv ((natOfDigs fp.1 : ℚ)) (mkRat ((10 : ℤ) ^ fp.1.length) 1))
    match fp.2 with
    | [] => some (qMul ((s.1 : ℚ)) base)
    | 'e' :: r3 => (parseExpPart r3).map (fun e => qMul (qMul ((s.1 : ℚ)) base) (qPowZ e))
    | 'E' :: r3 => (parseExpPart r3).map (fun e => qMul (qMul ((s.1 : ℚ)) base) (qPowZ e))
    | _ => none

/-- Sequence a list of optional values, failing if any entry is `none`. -/
def optList {α : Type} : List (Option α) → Option (List α)
  | [] => some []
  | none :: _ => none
  | some x :: rest => (optList rest).map (fun l => x :: l)

/-- Tokenize one raw line: normalize decimal separators, split on whitespace,
parse every token as a float. -/
def tokenizeLine (l : List Char) : Option (List ℚ) :=
  optList ((splitWS (l.map commaToDot)).map parseFloat)

/-- Tokenize a block of lines and concatenate the per-line token lists in order
(the `np.concatenate` accumulation loop shared by both readers). -/
def tokYes (ls : List (List Char)) : Option (List ℚ) :=
  (optList (ls.map tokenizeLine)).map (fun l => l.flatten)

/-!
## Section reader

`__readSection(width, height, fid)` consumes `ceil((width+1)/5)*(height+1)`
lines, then slices the flat token stream:
`beta = section[1:width+1]`, `section = section[width+1:]`,
`N = section[np.arange(0, width*height, width+1)]`,
`section = np.delete(section, np.arange(0, width*height, width+1))`,
`section = np.reshape(section, [int(np.size(section)/width), width])`.
-/

/-- `np.arange(0, stop, stride)` for natural arguments, `stride > 0`. -/
def arange (stop stride : ℕ) : List ℕ :=
  (List.range ((stop + stride - 1) / stride)).map (fun i => i * stride)

/-- Worker for `np.delete`: keep the elements whose position (counted from `k`)
is not listed in `idxs`. -/
def deleteGo (idxs : List ℕ) : ℕ → List ℚ → List ℚ
  | _, [] => []
  | k, x :: xs => if k ∈ idxs then deleteGo idxs (k + 1) xs else x :: deleteGo idxs (k + 1) xs

/-- Split a list into consecutive chunks of `w` elements (row-major reshape). -/
def chunkExact (w : ℕ) (l : List ℚ) : List (List ℚ) :=
  (List.range (l.length / w)).map (fun i => (l.drop (i * w)).take w)

/-- `np.reshape(l, [int(len(l)/w), w])`: fails unless `w` divides the length
(and fails at `w = 0`, where the Python computes `int(size/0)` and raises). -/
def npReshape (l : List ℚ) (w : ℕ) : Option (List (List ℚ)) :=
  if w = 0 then none
  else if l.length % w = 0 then some (chunkExact w l) else none

/-- Lines consumed by `__readSection`: `math.ceil((width+1)/5)*(height+1)`. -/
def secLineCount (w h : ℕ) : ℕ := ((w + 5) / 5) * (h + 1)

/-- Lines consumed by `__readTurbineSection`: `math.ceil((height+1)/5)*2`. -/
def boundLineCount (h : ℕ) : ℕ := ((h + 5) / 5) * 2

/-- The slicing part of `__readSection` on the flat token stream: returns
`(beta, N, field)`, or `none` where the Python raises (fancy indexing out of
bounds, or a reshape size mismatch). -/
def decodeSection (w h : ℕ) (toks : List ℚ) :
    Option (List ℚ × List ℚ × List (List ℚ)) :=
  let beta := (toks.drop 1).take w
  let sec1 := toks.drop (w + 1)
  let idxs := arange (w * h) (w + 1)
  match optList (idxs.map (fun i => sec1.get? i)) with
  | none => none
  | some bigN => (npReshape (deleteGo idxs 0 sec1) w).map (fun mat => (beta, bigN, mat))

/-- The slicing part of `__readTurbineSection`: `section[height+2:]`. -/
def decodeBounds (h : ℕ) (toks : List ℚ) : List ℚ := toks.drop (h + 2)

example : tokenizeLine ("1,5 2.5").data = some [mkRat 3 2, mkRat 5 2] := by decide
example : tokenizeLine ("1e2  -3").data = some [100, -3] := by decide
example : tokenizeLine ("1x").data = none := by decide
example : decodeSection 2 1 [9, 1, 2, 5, 10, 11] = some ([1, 2], [5], [[10, 11]]) := by decide

/-!
## Map loader

`readMapGT` scans the file line by line; each header test is a Python
substring test (`"..." in tline`), and a hit consumes the following block
of lines through `__readSection` / `__readTurbineSection`.  All five tests
run on the same line, in source order.
-/

/-- Header marker `"Mass Flow"`. -/
def hMass : List Char := ("Mass Flow").data

/-- Header marker `"Efficiency"`. -/
def hEff : List Char := ("Efficiency").data

/-- Header marker `"Pressure Ratio"`. -/
def hPR : List Char := ("Pressure Ratio").data

/-- The single-character marker `"M"` used by the exclusion guard. -/
def hM : List Char := ("M").data

/-- Header marker `"Min Pressure Ratio"`. -/
def hMinPR : List Char := ("Min Pressure Ratio").data

/-- Header marker `"Max Pressure Ratio"`. -/
def hMaxPR : List Char := ("Max Pressure Ratio").data

/-- Condition of `if "Mass Flow" in tline`. -/
def massHit (tline : List Char) : Bool := decide (hMass <:+: tline)

/-- Condition of `if "Efficiency" in tline`. -/
def effHit (tline : List Char) : Bool := decide (hEff <:+: tline)

/-- Condition of `if ("Pressure Ratio" in tline) and not("M" in tline)`. -/
def prHit (tline : List Char) : Bool :=
  decide (hPR <:+: tline) && !(decide (hM <:+: tline))

/-- Condition of `if "Min Pressure Ratio" in tline`. -/
def minHit (tline : List Char) : Bool := decide (hMinPR <:+: tline)

/-- Condition of `if "Max Pressure Ratio" in tline`. -/
def maxHit (tline : List Char) : Bool := decide (hMaxPR <:+: tline)

/-- The grids stored on a map: `beta`, `N`, `massFlow`, `efficiency`,
`compression`, with the class-level defaults as initial values. -/
structure GTMap where
  beta : List ℚ
  N : List ℚ
  massFlow : List (List ℚ)
  efficiency : List (List ℚ)
  compression : List (List ℚ)
  deriving DecidableEq

/-- The class-level defaults: `np.ones([10,1])` for `beta` and `N`,
`np.zeros([10,10])` for the three field matrices. -/
def defaultGrids : GTMap :=
  { beta := List.replicate 10 1
    N := List.replicate 10 1
    massFlow := List.replicate 10 (List.replicate 10 0)
    efficiency := List.replicate 10 (List.replicate 10 0)
    compression := List.replicate 10 (List.replicate 10 0) }

/-- Loader state: the grids plus the `mPR`/`MPR` bound vectors, which start
as empty arrays (`np.zeros([0,1])`). -/
structure LoadAcc where
  g : GTMap
  mPR : List ℚ
  MPR : List ℚ
  deriving DecidableEq

/-- Run `__readSection` at offset `k` into the unread cursor `cur`:
tokenize the next `secLineCount` lines and decode; returns the result and
the new offset. -/
def secRead (w h : ℕ) (cur : List (List Char)) (k : ℕ) :
    Option ((List ℚ × List ℚ × List (List ℚ)) × ℕ) :=
  match tokYes ((cur.drop k).take (secLineCount w h)) with
  | none => none
  | some toks =>
    match decodeSection w h toks with
    | none => none
    | some r => some (r, k + secLineCount w h)

/-- Run `__readTurbineSection` at offset `k` into the unread cursor. -/
def bndRead (h : ℕ) (cur : List (List Char)) (k : ℕ) : Option (List ℚ × ℕ) :=
  (tokYes ((cur.drop k).take (boundLineCount h))).map
    (fun toks => (decodeBounds h toks, k + boundLineCount h))

/-- The `"Mass Flow"` branch of the scan loop. -/
def stepMass (w h : ℕ) (tline : List Char) (cur : List (List Char)) :
    LoadAcc × ℕ → Option (LoadAcc × ℕ)
  | (a, k) =>
    if massHit tline then
      (secRead w h cur k).map (fun rk =>
        ({ a with g := { a.g with beta := rk.1.1, N := rk.1.2.1, massFlow := rk.1.2.2 } }, rk.2))
    else some (a, k)

/-- The `"Efficiency"` branch of the scan loop. -/
def stepEff (w h : ℕ) (tline : List Char) (cur : List (List Char)) :
    LoadAcc × ℕ → Option (LoadAcc × ℕ)
  | (a, k) =>
    if effHit tline then
      (secRead w h cur k).map (fun rk =>
        ({ a with g := { a.g with beta := rk.1.1, N := rk.1.2.1, efficiency := rk.1.2.2 } }, rk.2))
    else some (a, k)

/-- The compressor `"Pressure Ratio"` branch of the scan loop. -/
def stepPR (w h : ℕ) (tline : List Char) (cur : List (List Char)) :
    LoadAcc × ℕ → Option (LoadAcc × ℕ)
  | (a, k) =>
    if prHit tline then
      (secRead w h cur k).map (fun rk =>
        ({ a with g := { a.g with beta := rk.1.1, N := rk.1.2.1, compression := rk.1.2.2 } }, rk.2))
    else some (a, k)

/-- The `"Min Pressure Ratio"` branch of the scan loop. -/
def stepMin (h : ℕ) (tline : List Char) (cur : List (List Char)) :
    LoadAcc × ℕ → Option (LoadAcc × ℕ)
  | (a, k) =>
    if minHit tline then
      (bndRead h cur k).map (fun rk => ({ a with mPR := rk.1 }, rk.2))
    else some (a, k)

/-- The `"Max Pressure Ratio"` branch of the scan loop. -/
def stepMax (h : ℕ) (tline : List Char) (cur : List (List Char)) :
    LoadAcc × ℕ → Option (LoadAcc × ℕ)
  | (a, k) =>
    if maxHit tline then
      (bndRead h cur k).map (fun rk => ({ a with MPR := rk.1 }, rk.2))
    else some (a, k)

/-- Process one scanned line: the five header tests in source order, each
consuming further lines from the cursor on a hit.  Returns the updated
state and the number of cursor lines consumed. -/
def loadLine (w h : ℕ) (tline : List Char) (cur : List (List Char)) (a : LoadAcc) :
    Option (LoadAcc × ℕ) :=
  ((((stepMass w h tline cur (a, 0)).bind (stepEff w h tline cur)).bind
    (stepPR w h tline cur)).bind (stepMin h tline cur)).bind (stepMax h tline cur)

/-- Fuel-indexed scan loop.  Each iteration consumes at least the scanned
line itself, so fuel `lines.length` (as supplied by `loadLoop`) can never
run out; the `none` on exhausted fuel is unreachable there. -/
def loadGo (w h : ℕ) : ℕ → List (List Char) → LoadAcc → Option LoadAcc
  | _, [], a => some a
  | 0, _ :: _, _ => none
  | fuel + 1, tline :: rest, a =>
    match loadLine w h tline rest a with
    | none => none
    | some rk => loadGo w h fuel (rest.drop rk.2) rk.1

/-- The scan loop of `readMapGT` over the whole file. -/
def loadLoop (w h : ℕ) (lines : List (List Char)) (a : LoadAcc) : Option LoadAcc :=
  loadGo w h lines.length lines a

/-- `np.linspace(a, b, n)`: `n` evenly spaced samples from `a` to `b`,
endpoints included (`[a]` for `n = 1`, `[]` for `n = 0`). -/
def npLinspace (a b : ℚ) (n : ℕ) : List ℚ :=
  if n = 1 then [a]
  else (List.range n).map
    (fun (i : ℕ) => qAdd a (qMul ((i : ℚ)) (qDiv (qSub b a) (qSub ((n : ℚ)) 1))))

/-- The turbine reconstruction at the end of `readMapGT`: if `mPR` is
nonempty, `compression` is rebuilt as `np.zeros([height, width])` with row
`i` set to `np.linspace(mPR[i], MPR[i], width)` for `i < len(mPR)`;
`none` models the `IndexError` raised when `len(mPR) > height` or
`len(MPR) < len(mPR)`. -/
def reconstructTurbine (w h : ℕ) (acc : LoadAcc) : Option GTMap :=
  if acc.mPR.length = 0 then some acc.g
  else if acc.mPR.length ≤ h ∧ acc.mPR.length ≤ acc.MPR.length then
    some { acc.g with compression :=
      (List.range h).map (fun i =>
        if i < acc.mPR.length then npLinspace (acc.mPR.getD i 0) (acc.MPR.getD i 0) w
        else List.replicate w 0) }
  else none

/-- `readMapGT(fileLoc, width, height)` on the file's lines, starting from
the class-level default grids. -/
def readMapGT (w h : ℕ) (fileLines : List (List Char)) : Option GTMap :=
  match loadLoop w h fileLines { g := defaultGrids, mPR := [], MPR := [] } with
  | none => none
  | some acc => reconstructTurbine w h acc

/-!
## Map entity, constructor and scaling
-/

/-- The observable state of a `TurboMap` object. -/
structure TMState where
  name : List Char
  isCompressor : Bool
  isTurbine : Bool
  width : ℕ
  height : ℕ
  grids : GTMap
  Kp : ℚ
  Km : ℚ
  Keta : ℚ
  deriving DecidableEq

/-- `scaleMap(Kp, Km, Keta)`: replaces the three scale factors and nothing else. -/
def scaleMap (m : TMState) (Kp Km Keta : ℚ) : TMState :=
  { m with Kp := Kp, Km := Km, Keta := Keta }

/-- Failures of `__init__`: the `IndexError` from the default-name
derivation on a dot-free path, the `IOError` from opening a missing file,
and any error propagated out of `readMapGT`. -/
inductive InitErr where
  | indexErr : InitErr
  | ioErr : InitErr
  | loadErr : InitErr
  deriving DecidableEq

/-- View of `Except` as a sum, to transport decidable equality. -/
def exceptToSum {ε α : Type} : Except ε α → ε ⊕ α
  | Except.error e => Sum.inl e
  | Except.ok a => Sum.inr a

instance {ε α : Type} [DecidableEq ε] [DecidableEq α] : DecidableEq (Except ε α) := fun a b =>
  decidable_of_iff (exceptToSum a = exceptToSum b)
    (by cases a <;> cases b <;> simp [exceptToSum])

/-- The default-name derivation `fileLoc.split(".")[-2].split("/")[-1]`;
`none` models the `IndexError` when the path contains no `'.'`. -/
def deriveName (fileLoc : List Char) : Option (List Char) :=
  let parts := fileLoc.splitOnP (fun c => c = '.')
  if 2 ≤ parts.length then
    some (((parts.getD (parts.length - 2) []).splitOnP (fun c => c = '/')).getLastD [])
  else none

/-- The extension marker `".Map"` tested by the constructor. -/
def mapExt : List Char := (".Map").data

/-- The sentinel default for the `name` argument. -/
def defaultName : List Char := ("default").data

/-- `__init__(fileLoc, width, height, isCompressor, name)`.  The file
system is abstracted by `present` (does `fileLoc` exist?) and `contents`
(its lines); the file is consulted only on the `".Map" in fileLoc` branch. -/
def initTM (present : Bool) (contents : List (List Char)) (fileLoc : List Char)
    (width height : ℕ) (isComp : Bool) (nm : List Char) : Except InitErr TMState :=
  match (if nm = defaultName then deriveName fileLoc else some nm) with
  | none => Except.error InitErr.indexErr
  | some theName =>
    let base : TMState :=
      { name := theName, isCompressor := isComp, isTurbine := !isComp
        width := width, height := height, grids := defaultGrids
        Kp := 1, Km := 1, Keta := 1 }
    if decide (mapExt <:+: fileLoc) then
      if present then
        match readMapGT width height contents with
        | some g => Except.ok { base with grids := g }
        | none => Except.error InitErr.loadErr
      else Except.error InitErr.ioErr
    else Except.ok base

/-!
## Serialization (`writeMap`) and visualization (`printMap`) views

`writeMap` renders `self.N`, `self.beta`, `self.massFlow`,
`self.efficiency`, `self.compression` through
`np.array2string(..., separator=",", precision=5, floatmode="fixed")`.
With default print options (`suppress_small = False`) numpy renders an
array in fixed-point only when its nonzero finite absolute values `m..M`
satisfy `M < 1e8`, `m >= 1e-4` and `M/m <= 1e3`; otherwise every entry is
rendered in scientific notation.  A fixed-point entry carries exactly
`precision = 5` digits after the decimal point (value rounded to five
decimals); scientific entries are kept abstract, tagged with the value. -/

/-- Absolute values of the nonzero entries (the values numpy's mode
decision inspects). -/
def nzAbs (vals : List ℚ) : List ℚ := (vals.filter (fun v => !(v == 0))).map qAbs

/-- Maximum of a list of rationals, `none` when empty. -/
def listMax : List ℚ → Option ℚ
  | [] => none
  | x :: xs =>
    match listMax xs with
    | none => some x
    | some m => some (if x ≤ m then m else x)

/-- Minimum of a list of rationals, `none` when empty. -/
def listMin : List ℚ → Option ℚ
  | [] => none
  | x :: xs =>
    match listMin xs with
    | none => some x
    | some m => some (if x ≤ m then x else m)

/-- Numpy's per-array exponential-format decision under default print
options: scientific notation iff the nonzero absolute values are nonempty
and `max >= 1e8` or `min < 1e-4` or `max/min > 1e3`. -/
def expFormatB (vals : List ℚ) : Bool :=
  match listMax (nzAbs vals), listMin (nzAbs vals) with
  | some mx, some mn =>
    decide ((100000000 : ℚ) ≤ mx) || decide (mn < mkRat 1 10000) ||
      decide ((1000 : ℚ) < qDiv mx mn)
  | _, _ => false

/-- Little-endian decimal digits with structural fuel (`[]` for `0`). -/
def digitsGo : ℕ → ℕ → List ℕ
  | 0, _ => []
  | _, 0 => []
  | fuel + 1, n + 1 => (n + 1) % 10 :: digitsGo fuel ((n + 1) / 10)

/-- Little-endian decimal digits of a natural number (`[]` for `0`). -/
def digitsLE (n : ℕ) : List ℕ := digitsGo n n

/-- Decimal rendering of a natural number, most significant digit first. -/
def natChars (n : ℕ) : List Char :=
  if n = 0 then [ '0' ] else ((digitsLE n).map (fun d => Nat.digitChar d)).reverse

/-- The fractional field of a fixed-point rendering: exactly five digit
characters, zero-padded on the left (`m < 100000`). -/
def frac5 (m : ℕ) : List Char :=
  List.replicate (5 - (digitsLE m).length) '0' ++ ((digitsLE m).map (fun d => Nat.digitChar d)).reverse

/-- Fixed-point rendering at five decimals: the value is rounded to five
decimal places and printed as `sign, integer part, '.', five digits`. -/
def fixed5 (x : ℚ) : List Char :=
  let n : ℤ := qRound (qMul x ((100000 : ℚ)))
  (if n < 0 then [ '-' ] else []) ++ natChars (n.natAbs / 100000) ++
    '.' :: frac5 (n.natAbs % 100000)

/-- One rendered numeric token of the XML payload: either an explicit
fixed-point character string, or a scientific-notation rendering kept
abstract and tagged with the rendered value. -/
inductive NumStr where
  | fixedPt : List Char → NumStr
  | sciNot : ℚ → NumStr
  deriving DecidableEq

/-- Render one value under the array's format decision. -/
def renderOne (sci : Bool) (v : ℚ) : NumStr :=
  if sci then NumStr.sciNot v else NumStr.fixedPt (fixed5 v)

/-- `np.array2string` on a vector: one mode decision for the whole array. -/
def renderArr (vals : List ℚ) : List NumStr :=
  vals.map (renderOne (expFormatB vals))

/-- `np.array2string` on a matrix: one mode decision over all entries. -/
def renderMat (m : List (List ℚ)) : List (List NumStr) :=
  m.map (fun row => row.map (renderOne (expFormatB m.flatten)))

/-- The numeric content of the XML document written by `writeMap`:
the `axis2` speed array, the `axis3` beta array, and the three-matrix
`return` payload, in source order. -/
structure XmlPayload where
  speedVals : List NumStr
  betaVals : List NumStr
  massVals : List (List NumStr)
  effVals : List (List NumStr)
  prVals : List (List NumStr)
  deriving DecidableEq

/-- `writeMap` serializes the stored arrays `self.N`, `self.beta`,
`self.massFlow`, `self.efficiency`, `self.compression` as they are. -/
def writeMapVals (m : TMState) : XmlPayload :=
  { speedVals := renderArr m.grids.N
    betaVals := renderArr m.grids.beta
    massVals := renderMat m.grids.massFlow
    effVals := renderMat m.grids.efficiency
    prVals := renderMat m.grids.compression }

/-- The three arrays `printMap` hands to `contourf` on the compressor
branch: `massFlow*Km`, `(compression-1)*Kp+1`, `efficiency*Keta`. -/
def printMapData (m : TMState) : List (List ℚ) × List (List ℚ) × List (List ℚ) :=
  (m.grids.massFlow.map (fun r => r.map (fun v => qMul v m.Km)),
   m.grids.compression.map (fun r => r.map (fun v => qAdd (qMul (qSub v 1) m.Kp) 1)),
   m.grids.efficiency.map (fun r => r.map (fun v => qMul v m.Keta)))

example : fixed5 1 = ("1.00000").data := by decide
example : fixed5 (mkRat (-1) 2) = ("-0.50000").data := by decide
example : expFormatB [1, mkRat 1 100000] = true := by decide
example : expFormatB [1, 2] = false := by decide

/-!
## Claim C4: header disambiguation
-/

/-- C4: a line containing `"Min Pressure Ratio"` or `"Max Pressure Ratio"`
is never dispatched to the compressor `"Pressure Ratio"` Section-Reader
path; that path fires exactly when the line contains `"Pressure Ratio"`
and does not contain `"M"`; and Min/Max lines fire the Bound-Reader
branches. -/
theorem header_dispatch_disambig (tline : List Char) :
    ((hMinPR <:+: tline) ∨ (hMaxPR <:+: tline) → prHit tline = false) ∧
    (prHit tline = true ↔ ((hPR <:+: tline) ∧ ¬(hM <:+: tline))) ∧
    ((hMinPR <:+: tline) → minHit tline = true) ∧
    ((hMaxPR <:+: tline) → maxHit tline = true) := by
  refine ⟨?_, ?_, ?_, ?_⟩
  · intro hmm
    have hMinf : hM <:+: tline := by
      rcases hmm with hmin | hmax
      · exact (show hM <:+: hMinPR by decide).trans hmin
      · exact (show hM <:+: hMaxPR by decide).trans hmax
    simp [prHit, hMinf]
  · simp [prHit]
  · intro hmin
    simp [minHit, hmin]
  · intro hmax
    simp [maxHit, hmax]

/-- Witness for C4 at the concrete header lines themselves. -/
theorem header_dispatch_disambig_inst :
    prHit hMinPR = false ∧ minHit hMinPR = true ∧ maxHit hMaxPR = true ∧
    prHit hPR = true :=
  ⟨(header_dispatch_disambig hMinPR).1 (Or.inl (by decide)),
   (header_dispatch_disambig hMinPR).2.2.1 (by decide),
   (header_dispatch_disambig hMaxPR).2.2.2 (by decide),
   ((header_dispatch_disambig hPR).2.1).mpr ⟨by decide, by decide⟩⟩

/-!
## Claim C7: decimal-separator normalization
-/

/-- C7: tokenizing a line that uses `','` as decimal separator yields
exactly the token sequence of the same line written with `'.'`
(obtained by mapping every comma to a period), and the single token
`"1,234"` parses to the value `1.234`. -/
theorem comma_decimal_equiv :
    (∀ l : List Char, tokenizeLine l = tokenizeLine (l.map commaToDot)) ∧
    tokenizeLine (("1,234").data) = some [mkRat 1234 1000] ∧
    tokenizeLine (("1.234").data) = some [mkRat 1234 1000] := by
  refine ⟨?_, by decide, by decide⟩
  intro l
  have hfun : ∀ c, commaToDot (commaToDot c) = commaToDot c := by
    intro c
    by_cases hc : c = ','
    · subst hc; decide
    · simp [commaToDot, hc]
  have hmaps : l.map (commaToDot ∘ commaToDot) = l.map commaToDot := by
    induction l with
    | nil => rfl
    | cons c cs ih => simp [Function.comp, hfun, ih]
  rw [tokenizeLine, tokenizeLine, List.map_map, hmaps]

/-!
## Claim C10: construction without a `".Map"` extension
-/

/-- C10: when `fileLoc` does not contain `".Map"`, construction never
consults the file system (the result is the same for any file-system
state, and a missing file raises no `IOError` and no load error), and any
successfully constructed map keeps the class-level default grids —
10 × 10 zero matrices and length-10 all-ones `beta` and `N` — regardless
of the supplied width and height. -/
theorem init_no_read_defaults (p1 p2 : Bool) (c1 c2 : List (List Char))
    (fileLoc : List Char) (w h : ℕ) (ic : Bool) (nm : List Char)
    (hno : ¬(mapExt <:+: fileLoc)) :
    initTM p1 c1 fileLoc w h ic nm = initTM p2 c2 fileLoc w h ic nm ∧
    initTM p1 c1 fileLoc w h ic nm ≠ Except.error InitErr.ioErr ∧
    initTM p1 c1 fileLoc w h ic nm ≠ Except.error InitErr.loadErr ∧
    ∀ m : TMState, initTM p1 c1 fileLoc w h ic nm = Except.ok m →
      m.grids = defaultGrids ∧
      m.grids.massFlow = List.replicate 10 (List.replicate 10 0) ∧
      m.grids.compression = List.replicate 10 (List.replicate 10 0) ∧
      m.grids.efficiency = List.replicate 10 (List.replicate 10 0) ∧
      m.grids.beta = List.replicate 10 1 ∧
      m.grids.N = List.replicate 10 1 := by
  have hd : decide (mapExt <:+: fileLoc) = false := decide_eq_false hno
  unfold initTM
  cases hname : (if nm = defaultName then deriveName fileLoc else some nm) with
  | none => simp
  | some s =>
    simp only [hd, Bool.false_eq_true, if_false]
    refine ⟨by trivial, by simp, by simp, ?_⟩
    intro m hm
    cases hm
    exact ⟨rfl, rfl, rfl, rfl, rfl, rfl⟩

/-- Witness for C10: a compressor constructed from a non-`.Map` path on an
empty file system keeps the default mass-flow grid. -/
theorem init_no_read_defaults_inst :
    initTM false [] (("maps/HPC01_SI.txt").data) 20 10 true (("HPC").data) =
      initTM true [("junk").data] (("maps/HPC01_SI.txt").data) 20 10 true (("HPC").data) ∧
    (⟨("HPC").data, true, false, 20, 10, defaultGrids, 1, 1, 1⟩ : TMState).grids.massFlow =
      List.replicate 10 (List.replicate 10 0) := by
  have h := init_no_read_defaults false true [] [("junk").data]
      (("maps/HPC01_SI.txt").data) 20 10 true (("HPC").data) (by decide)
  exact ⟨h.1, (h.2.2.2 _ (by decide)).2.1⟩

/-!
## Claim C2: scale factors and serialization
-/

/-- A small concrete compressor map used by the C2 counterexample. -/
def cexMapC2 : TMState :=
  ⟨("m").data, true, false, 1, 1, ⟨[1], [1], [[1]], [[1]], [[1]]⟩, 1, 1, 1⟩

/-- C2 counterexample: after `scaleMap(1, 2, 1)` the mass-flow payload of
`writeMap` renders the stored value `1` (as `"1.00000"`), not the scaled
view `Km * 1 = 2` (which would render as `"2.00000"`): the scale factors
are not applied at serialization. -/
theorem writeMap_scaling_cex :
    (writeMapVals (scaleMap cexMapC2 1 2 1)).massVals =
      [[NumStr.fixedPt (("1.00000").data)]] ∧
    [[NumStr.fixedPt (("1.00000").data)]] ≠ [[NumStr.fixedPt (("2.00000").data)]] ∧
    fixed5 (qMul 2 1) = ("2.00000").data := by decide

/-- C2 amended: `scaleMap` replaces only the scale triple and never
mutates the stored matrices; `writeMap` serializes the raw stored
matrices, unaffected by the scale triple; the scaled views — mass flow
times `Km`, pressure ratio transformed as `(v - 1) * Kp + 1`, efficiency
times `Keta` — are applied at visualization (`printMap`), not at
serialization. -/
theorem scale_view_only (m : TMState) (Kp Km Keta : ℚ) :
    (scaleMap m Kp Km Keta).grids = m.grids ∧
    writeMapVals (scaleMap m Kp Km Keta) = writeMapVals m ∧
    (writeMapVals m).massVals = renderMat m.grids.massFlow ∧
    (writeMapVals m).effVals = renderMat m.grids.efficiency ∧
    (writeMapVals m).prVals = renderMat m.grids.compression ∧
    printMapData (scaleMap m Kp Km Keta) =
      (m.grids.massFlow.map (fun r => r.map (fun v => v * Km)),
       m.grids.compression.map (fun r => r.map (fun v => (v - 1) * Kp + 1)),
       m.grids.efficiency.map (fun r => r.map (fun v => v * Keta))) := by
  refine ⟨rfl, rfl, rfl, rfl, rfl, ?_⟩
  simp [printMapData, scaleMap, qMul_eq, qAdd_eq, qSub_eq]

/-!
## Claim C3: turbine pressure-ratio reconstruction
-/

lemma getD_map_range {α : Type} (f : ℕ → α) (n i : ℕ) (hi : i < n) (d : α) :
    ((List.range n).map f).getD i d = f i := by
  rw [List.getD_eq_getElem?_getD, List.getElem?_map, List.getElem?_range hi]
  rfl

lemma npLinspace_length (a b : ℚ) (n : ℕ) (hn : 2 ≤ n) : (npLinspace a b n).length = n := by
  rw [npLinspace, if_neg (by omega)]
  simp

lemma npLinspace_getD (a b : ℚ) (n : ℕ) (hn : 2 ≤ n) (j : ℕ) (hj : j < n) :
    (npLinspace a b n).getD j 0 = a + (j : ℚ) * ((b - a) / ((n : ℚ) - 1)) := by
  rw [npLinspace, if_neg (by omega), getD_map_range _ _ _ hj]
  rw [qAdd_eq, qMul_eq, qDiv_eq, qSub_eq, qSub_eq]

/-- C3: whenever the turbine reconstruction runs (bound vectors read), each
reconstructed row `i` is `np.linspace(mPR[i], MPR[i], width)`: it has
`width` entries, starts at `mPR[i]`, ends at `MPR[i]`, has constant
consecutive difference `(MPR[i] - mPR[i]) / (width - 1)`, and in
particular `np.linspace(2, 4, 5) = [2, 2.5, 3, 3.5, 4]`. -/
theorem turbine_linspace_rows (w h : ℕ) (hw : 2 ≤ w) (acc : LoadAcc) (g : GTMap)
    (hrun : reconstructTurbine w h acc = some g)
    (i : ℕ) (hi : i < h) (hib : i < acc.mPR.length) :
    g.compression.getD i [] = npLinspace (acc.mPR.getD i 0) (acc.MPR.getD i 0) w ∧
    (g.compression.getD i []).length = w ∧
    (g.compression.getD i []).getD 0 0 = acc.mPR.getD i 0 ∧
    (g.compression.getD i []).getD (w - 1) 0 = acc.MPR.getD i 0 ∧
    (∀ j, j + 1 < w →
      (g.compression.getD i []).getD (j + 1) 0 - (g.compression.getD i []).getD j 0 =
        (acc.MPR.getD i 0 - acc.mPR.getD i 0) / ((w : ℚ) - 1)) ∧
    npLinspace 2 4 5 = [2, mkRat 5 2, 3, mkRat 7 2, 4] := by
  set a := acc.mPR.getD i 0 with ha
  set b := acc.MPR.getD i 0 with hb
  have hne : ¬(acc.mPR.length = 0) := by omega
  rw [reconstructTurbine, if_neg hne] at hrun
  by_cases hcond : acc.mPR.length ≤ h ∧ acc.mPR.length ≤ acc.MPR.length
  case neg =>
    rw [if_neg hcond] at hrun
    exact absurd hrun (by simp)
  rw [if_pos hcond] at hrun
  have hgeq := Option.some.inj hrun
  have hrow : g.compression.getD i [] = npLinspace a b w := by
    rw [← hgeq]
    show ((List.range h).map _).getD i [] = _
    rw [getD_map_range _ _ _ hi, if_pos hib]
  have hw1 : ((w : ℚ)) - 1 ≠ 0 := by
    have : (2 : ℚ) ≤ (w : ℚ) := by exact_mod_cast hw
    intro hzero
    linarith
  refine ⟨hrow, ?_, ?_, ?_, ?_, by decide⟩
  · rw [hrow]
    exact npLinspace_length a b w hw
  · rw [hrow, npLinspace_getD a b w hw 0 (by omega)]
    simp
  · rw [hrow, npLinspace_getD a b w hw (w - 1) (by omega)]
    have hcast : (((w - 1 : ℕ)) : ℚ) = (w : ℚ) - 1 := by
      push_cast [Nat.cast_sub (show 1 ≤ w by omega)]
      ring
    rw [hcast]
    field_simp
  · intro j hj
    rw [hrow, npLinspace_getD a b w hw (j + 1) (by omega),
      npLinspace_getD a b w hw j (by omega)]
    push_cast
    ring

/-- Witness for C3 at `mPR = [2]`, `MPR = [4]`, `width = 5`, `height = 1`. -/
theorem turbine_linspace_rows_inst :
    ({ defaultGrids with compression := [[2, mkRat 5 2, 3, mkRat 7 2, 4]] } : GTMap).compression.getD 0 []
      = npLinspace 2 4 5 ∧
    npLinspace 2 4 5 = [2, mkRat 5 2, 3, mkRat 7 2, 4] := by
  have h := turbine_linspace_rows 5 1 (by decide) ⟨defaultGrids, [2], [4]⟩
      { defaultGrids with compression := [[2, mkRat 5 2, 3, mkRat 7 2, 4]] }
      (by decide) 0 (by decide) (by decide)
  exact ⟨h.1, h.2.2.2.2.2⟩

/-!
## Claim C6: the beta slice of a section
-/

/-- C6 counterexample: for the section token stream
`[9, 1, 2, 5, 10, 11]` with `width = 2`, `height = 1`, the decoded beta
vector is `[1, 2]` — the tokens at positions 1..width — whereas the first
`width` tokens of the stream are `[9, 1]`: the Section Reader skips the
leading label token before taking the beta values. -/
theorem beta_tokens_cex :
    (decodeSection 2 1 [9, 1, 2, 5, 10, 11]).map (fun r => r.1) = some [1, 2] ∧
    (([9, 1, 2, 5, 10, 11] : List ℚ).take 2 = [9, 1]) ∧
    (([1, 2] : List ℚ) ≠ [9, 1]) := by decide

/-- C6 amended: the beta vector is `section[1 : width+1]` — the `width`
tokens following the leading label token — and exactly the first
`width + 1` tokens are dropped before the speed/field decoding: the
decode result depends on the stream only through those two slices. -/
theorem beta_tokens_ok (w h : ℕ) (toks toks2 : List ℚ)
    (hbeta : (toks.drop 1).take w = (toks2.drop 1).take w)
    (hrest : toks.drop (w + 1) = toks2.drop (w + 1)) :
    decodeSection w h toks = decodeSection w h toks2 ∧
    ∀ b bigN mat, decodeSection w h toks = some (b, bigN, mat) →
      b = (toks.drop 1).take w := by
  constructor
  · rw [decodeSection, decodeSection, hbeta, hrest]
  · intro b bigN mat hdec
    rw [decodeSection] at hdec
    rcases hopt : optList (((arange (w * h) (w + 1))).map
        (fun i => (toks.drop (w + 1)).get? i)) with _ | bigN2
    · rw [hopt] at hdec
      simp at hdec
    · rw [hopt] at hdec
      rcases hres : npReshape (deleteGo (arange (w * h) (w + 1)) 0 (toks.drop (w + 1))) w
          with _ | mat2
      · rw [hres] at hdec
        simp at hdec
      · rw [hres] at hdec
        simp only [Option.map_some] at hdec
        exact (Prod.mk.injEq _ _ _ _).mp (Option.some.inj hdec) |>.1.symm ▸ rfl

/-- Witness for C6 on the concrete stream `[9, 1, 2, 5, 10, 11]`. -/
theorem beta_tokens_ok_inst :
    ([1, 2] : List ℚ) = (([9, 1, 2, 5, 10, 11] : List ℚ).drop 1).take 2 := by
  have h := beta_tokens_ok 2 1 [9, 1, 2, 5, 10, 11] [9, 1, 2, 5, 10, 11] rfl rfl
  exact h.2 [1, 2] [5] [[10, 11]] (by decide)

/-!
## Claim C8: fixed five-decimal serialization
-/

/-- Number of characters after the last `'.'` of a rendered token. -/
def digitsAfterPoint (cs : List Char) : ℕ :=
  (cs.reverse.takeWhile (fun c => !(c == '.'))).length

/-- Does a rendered token look like a fixed-point number with exactly five
digits after the decimal point? -/
def tokIsFixed5 : NumStr → Bool
  | NumStr.fixedPt cs => (digitsAfterPoint cs == 5) && cs.contains '.'
  | NumStr.sciNot _ => false

/-- All numeric tokens emitted into the XML document: speed axis, beta
axis, and the three-matrix payload. -/
def allToks (p : XmlPayload) : List NumStr :=
  p.speedVals ++ p.betaVals ++ p.massVals.flatten ++ p.effVals.flatten ++ p.prVals.flatten

/-- The magnitude conditions under which numpy keeps fixed-point notation
for an array: every nonzero entry has absolute value in `[1e-4, 1e8)` and
no nonzero entry exceeds `1000` times another (`mkRat 1 10000 = 1e-4`). -/
@[reducible] def rangeOK (vals : List ℚ) : Prop :=
  ∀ u ∈ vals, u ≠ 0 →
    mkRat 1 10000 ≤ |u| ∧ |u| < 100000000 ∧ ∀ v ∈ vals, v ≠ 0 → |u| ≤ qMul 1000 (|v|)

lemma digitsGo_lt : ∀ (fuel n d : ℕ), d ∈ digitsGo fuel n → d < 10 := by
  intro fuel
  induction fuel with
  | zero => intro n d h; exact absurd h (by simp [digitsGo])
  | succ f ih =>
    intro n d h
    match n with
    | 0 => exact absurd h (by simp [digitsGo])
    | k + 1 =>
      rw [digitsGo] at h
      rcases List.mem_cons.mp h with rfl | h2
      · exact Nat.mod_lt _ (by norm_num)
      · exact ih _ _ h2

lemma digitsGo_len : ∀ (fuel n k : ℕ), n < 10 ^ k → (digitsGo fuel n).length ≤ k := by
  intro fuel
  induction fuel with
  | zero => intro n k _; simp [digitsGo]
  | succ f ih =>
    intro n k hn
    match n with
    | 0 => simp [digitsGo]
    | m + 1 =>
      have hk : k ≠ 0 := by
        intro h0
        subst h0
        simp at hn
      rw [digitsGo]
      simp only [List.length_cons]
      have hdiv : (m + 1) / 10 < 10 ^ (k - 1) := by
        rw [Nat.div_lt_iff_lt_mul (by norm_num)]
        calc m + 1 < 10 ^ k := hn
          _ = 10 ^ (k - 1) * 10 := by
              conv_lhs => rw [show k = (k - 1) + 1 by omega]
              rw [pow_succ]
      have := ih ((m + 1) / 10) (k - 1) hdiv
      omega

lemma digitChar_ne_dot (d : ℕ) (hd : d < 10) : Nat.digitChar d ≠ '.' := by
  interval_cases d <;> decide

lemma frac5_length (m : ℕ) (hm : m < 100000) : (frac5 m).length = 5 := by
  rw [frac5]
  have h5 : (digitsLE m).length ≤ 5 := by
    refine digitsGo_len m m 5 ?_
    calc m < 100000 := hm
      _ = 10 ^ 5 := by norm_num
  simp only [List.length_append, List.length_replicate, List.length_reverse, List.length_map]
  omega

lemma frac5_no_dot (m : ℕ) : ∀ c ∈ frac5 m, c ≠ '.' := by
  intro c hc
  rw [frac5] at hc
  rcases List.mem_append.mp hc with h | h
  · rw [List.eq_of_mem_replicate h]
    decide
  · rw [List.mem_reverse] at h
    obtain ⟨d, hd, rfl⟩ := List.mem_map.mp h
    exact digitChar_ne_dot d (digitsGo_lt _ _ d hd)

lemma takeWhile_all_append (p : Char → Bool) (u v : List Char)
    (hu : ∀ c ∈ u, p c = true) : (u ++ v).takeWhile p = u ++ v.takeWhile p := by
  induction u with
  | nil => rfl
  | cons c cs ih =>
    rw [List.cons_append, List.takeWhile_cons, hu c (by simp), List.cons_append]
    rw [ih (fun d hd => hu d (by simp [hd]))]
    simp

lemma digitsAfterPoint_append (pre F : List Char) (hF : ∀ c ∈ F, c ≠ '.') :
    digitsAfterPoint (pre ++ '.' :: F) = F.length := by
  rw [digitsAfterPoint, List.reverse_append, List.reverse_cons, List.append_assoc,
    List.singleton_append]
  rw [takeWhile_all_append _ F.reverse _ (by
    intro c hc
    have : c ≠ '.' := hF c (List.mem_reverse.mp hc)
    simp [this])]
  rw [List.takeWhile_cons]
  norm_num

lemma digitsAfterPoint_fixed5 (x : ℚ) : digitsAfterPoint (fixed5 x) = 5 := by
  rw [fixed5]
  have hm5 : (qRound (qMul x ((100000 : ℚ)))).natAbs % 100000 < 100000 :=
    Nat.mod_lt _ (by norm_num)
  rw [digitsAfterPoint_append _ _ (frac5_no_dot _)]
  exact frac5_length _ hm5

lemma dot_mem_fixed5 (x : ℚ) : '.' ∈ fixed5 x := by
  rw [fixed5]
  exact List.mem_append.mpr (Or.inr (List.mem_cons_self _ _))

lemma contains_fixed5 (x : ℚ) : (fixed5 x).contains '.' = true :=
  List.elem_iff.mpr (dot_mem_fixed5 x)

lemma listMax_mem : ∀ {l : List ℚ} {m : ℚ}, listMax l = some m → m ∈ l := by
  intro l
  induction l with
  | nil => intro m h; exact absurd h (by simp [listMax])
  | cons x xs ih =>
    intro m h
    rw [listMax] at h
    rcases hxs : listMax xs with _ | mm
    · rw [hxs] at h
      rw [← Option.some.inj h]
      exact List.mem_cons_self _ _
    · rw [hxs] at h
      have hm := Option.some.inj h
      by_cases hle : x ≤ mm
      · rw [if_pos hle] at hm
        exact List.mem_cons_of_mem _ (hm ▸ ih hxs)
      · rw [if_neg hle] at hm
        rw [← hm]
        exact List.mem_cons_self _ _

lemma listMin_mem : ∀ {l : List ℚ} {m : ℚ}, listMin l = some m → m ∈ l := by
  intro l
  induction l with
  | nil => intro m h; exact absurd h (by simp [listMin])
  | cons x xs ih =>
    intro m h
    rw [listMin] at h
    rcases hxs : listMin xs with _ | mm
    · rw [hxs] at h
      rw [← Option.some.inj h]
      exact List.mem_cons_self _ _
    · rw [hxs] at h
      have hm := Option.some.inj h
      by_cases hle : x ≤ mm
      · rw [if_pos hle] at hm
        rw [← hm]
        exact List.mem_cons_self _ _
      · rw [if_neg hle] at hm
        exact List.mem_cons_of_mem _ (hm ▸ ih hxs)

lemma mem_nzAbs {vals : List ℚ} {x : ℚ} (hx : x ∈ nzAbs vals) :
    ∃ u, u ∈ vals ∧ u ≠ 0 ∧ x = |u| := by
  rw [nzAbs] at hx
  obtain ⟨u, hu, rfl⟩ := List.mem_map.mp hx
  have h1 := List.mem_filter.mp hu
  refine ⟨u, h1.1, ?_, qAbs_eq u⟩
  have := h1.2
  simpa using this

lemma expFormatB_false (vals : List ℚ) (hok : rangeOK vals) : expFormatB vals = false := by
  rw [expFormatB]
  rcases hmx : listMax (nzAbs vals) with _ | mx
  · rfl
  · rcases hmn : listMin (nzAbs vals) with _ | mn
    · rfl
    obtain ⟨u, hu, hu0, hxu⟩ := mem_nzAbs (listMax_mem hmx)
    obtain ⟨v, hv, hv0, hxv⟩ := mem_nzAbs (listMin_mem hmn)
    obtain ⟨hlo, hhi, hrat⟩ := hok u hu hu0
    have hvpos : (0 : ℚ) < |v| := abs_pos.mpr hv0
    have h1 : ¬((100000000 : ℚ) ≤ mx) := by
      rw [hxu]
      exact not_le.mpr hhi
    have h2 : ¬(mn < mkRat 1 10000) := by
      rw [hxv]
      exact not_lt.mpr (hok v hv hv0).1
    have h3 : ¬((1000 : ℚ) < qDiv mx mn) := by
      rw [hxu, hxv, qDiv_eq]
      refine not_lt.mpr ((div_le_iff₀ hvpos).mpr ?_)
      have := hrat v hv hv0
      rw [qMul_eq] at this
      linarith
    simp [h1, h2, h3]

lemma renderArr_fixed (vals : List ℚ) (hok : rangeOK vals) :
    ∀ tok ∈ renderArr vals, tokIsFixed5 tok = true := by
  intro tok htok
  rw [renderArr, expFormatB_false vals hok] at htok
  obtain ⟨v, hv, rfl⟩ := List.mem_map.mp htok
  rw [renderOne]
  simp [tokIsFixed5, digitsAfterPoint_fixed5 v, dot_mem_fixed5 v, contains_fixed5 v]

lemma renderMat_flatten (M : List (List ℚ)) :
    (renderMat M).flatten = (M.flatten).map (renderOne (expFormatB M.flatten)) := by
  rw [renderMat, List.map_flatten]

/-- A one-entry compressor map whose mass-flow value `1e-5` falls below
numpy's `1e-4` small-value threshold. -/
def cexMapC8 : TMState :=
  ⟨("m").data, true, false, 1, 1, ⟨[1], [1], [[mkRat 1 100000]], [[1]], [[1]]⟩, 1, 1, 1⟩

/-- C8 counterexample: the stored mass-flow value `1e-5` is emitted by
`writeMap` in scientific notation (numpy's small-value threshold flips the
whole array to exponential format), not as a fixed-point string with five
decimals — the claim fails for values of extreme magnitude. -/
theorem fixed5_sci_cex :
    cexMapC8.grids.massFlow = [[mkRat 1 100000]] ∧
    (writeMapVals cexMapC8).massVals = [[NumStr.sciNot (mkRat 1 100000)]] ∧
    tokIsFixed5 (NumStr.sciNot (mkRat 1 100000)) = false := by decide

/-- C8 amended: provided each serialized array (speed, beta, and each of
the three matrices) satisfies numpy's fixed-point magnitude conditions —
nonzero absolute values in `[1e-4, 1e8)` with max/min ratio at most 1000 —
every numeric token of the XML payload is a fixed-point string with
exactly five digits after the decimal point, never scientific notation. -/
theorem fixed5_rendering_ok (m : TMState)
    (hN : rangeOK m.grids.N) (hbeta : rangeOK m.grids.beta)
    (hmass : rangeOK m.grids.massFlow.flatten)
    (heff : rangeOK m.grids.efficiency.flatten)
    (hcomp : rangeOK m.grids.compression.flatten) :
    ∀ tok ∈ allToks (writeMapVals m), tokIsFixed5 tok = true := by
  intro tok htok
  rw [allToks] at htok
  simp only [writeMapVals, List.mem_append] at htok
  rcases htok with ((((h | h) | h) | h) | h)
  · exact renderArr_fixed _ hN tok h
  · exact renderArr_fixed _ hbeta tok h
  · rw [renderMat_flatten] at h
    obtain ⟨v, hv, rfl⟩ := List.mem_map.mp h
    rw [expFormatB_false _ hmass, renderOne]
    simp [tokIsFixed5, digitsAfterPoint_fixed5 v, dot_mem_fixed5 v, contains_fixed5 v]
  · rw [renderMat_flatten] at h
    obtain ⟨v, hv, rfl⟩ := List.mem_map.mp h
    rw [expFormatB_false _ heff, renderOne]
    simp [tokIsFixed5, digitsAfterPoint_fixed5 v, dot_mem_fixed5 v, contains_fixed5 v]
  · rw [renderMat_flatten] at h
    obtain ⟨v, hv, rfl⟩ := List.mem_map.mp h
    rw [expFormatB_false _ hcomp, renderOne]
    simp [tokIsFixed5, digitsAfterPoint_fixed5 v, dot_mem_fixed5 v, contains_fixed5 v]

/-- A small well-ranged map for the C8 witness. -/
def w8map : TMState :=
  ⟨("m").data, true, false, 1, 1, ⟨[1], [mkRat 1 2], [[100]], [[mkRat 3 4]], [[2]]⟩, 1, 1, 1⟩

/-- Witness for C8 on a concrete in-range map: the first payload token is
a five-decimal fixed-point string. -/
theorem fixed5_rendering_ok_inst :
    tokIsFixed5 ((allToks (writeMapVals w8map)).getD 0 (NumStr.sciNot 0)) = true := by
  have h := fixed5_rendering_ok w8map (by decide) (by decide) (by decide) (by decide) (by decide)
  exact h _ (by decide)

/-!
## Claim C5: speed extraction and field reshape

After the header row is dropped, the remaining stream is structurally
`height` logical rows of `width + 1` tokens each.  `rowHeads` collects the
leading token of each row; `rowTails` collects the remaining `width`
tokens of each row.
-/

/-- The leading token of each successive `(w+1)`-token logical row. -/
def rowHeads (w : ℕ) : ℕ → List ℚ → List ℚ
  | 0, _ => []
  | hh + 1, t => t.headD 0 :: rowHeads w hh (t.drop (w + 1))

/-- The remaining `w` tokens of each successive `(w+1)`-token logical row. -/
def rowTails (w : ℕ) : ℕ → List ℚ → List (List ℚ)
  | 0, _ => []
  | hh + 1, t => ((t.drop 1).take w) :: rowTails w hh (t.drop (w + 1))

lemma rowHeads_length (w : ℕ) : ∀ (h : ℕ) (t : List ℚ), (rowHeads w h t).length = h := by
  intro h
  induction h with
  | zero => intro t; rfl
  | succ hh ih => intro t; rw [rowHeads, List.length_cons, ih]

lemma rowTails_count (w : ℕ) : ∀ (h : ℕ) (t : List ℚ), (rowTails w h t).length = h := by
  intro h
  induction h with
  | zero => intro t; rfl
  | succ hh ih => intro t; rw [rowTails, List.length_cons, ih]

lemma arange_stride (w h : ℕ) (hwh : h ≤ w) :
    arange (w * h) (w + 1) = (List.range h).map (fun i => i * (w + 1)) := by
  rw [arange]
  have e : (w * h + (w + 1) - 1) = w * h + w := by omega
  rw [e]
  have hcnt : (w * h + w) / (w + 1) = h := by
    refine Nat.div_eq_of_lt_le ?_ ?_
    · calc h * (w + 1) = w * h + h := by ring
        _ ≤ w * h + w := Nat.add_le_add_left hwh _
    · calc w * h + w < w * h + (h + w + 1) := Nat.add_lt_add_left (by omega) _
        _ = (h + 1) * (w + 1) := by ring
  rw [hcnt]

lemma optList_stride (w : ℕ) : ∀ (h : ℕ) (t : List ℚ), t.length = (w + 1) * h →
    optList (((List.range h).map (fun i => i * (w + 1))).map (fun i => t.get? i)) =
      some (rowHeads w h t) := by
  intro h
  induction h with
  | zero => intro t _; rfl
  | succ hh ih =>
    intro t ht
    cases t with
    | nil =>
      rw [List.length_nil] at ht
      exact absurd ht.symm (Nat.mul_ne_zero (by omega) (by omega))
    | cons a ts =>
      have hlen2 : ((a :: ts).drop (w + 1)).length = (w + 1) * hh := by
        rw [List.length_drop, ht, show (w + 1) * (hh + 1) = (w + 1) * hh + (w + 1) by ring]
        simp
      rw [List.range_succ_eq_map, List.map_cons, List.map_cons, List.map_map, List.map_map]
      have hcong : ((List.range hh).map (((fun i => (a :: ts).get? i) ∘
          (fun i => i * (w + 1))) ∘ Nat.succ)) =
          ((List.range hh).map ((fun i => ((a :: ts).drop (w + 1)).get? i) ∘
            (fun i => i * (w + 1)))) := by
        refine List.map_congr_left ?_
        intro i _
        show (a :: ts).get? (Nat.succ i * (w + 1)) = ((a :: ts).drop (w + 1)).get? (i * (w + 1))
        rw [List.get?_eq_getElem?, List.get?_eq_getElem?, List.getElem?_drop]
        congr 1
        rw [Nat.succ_mul, Nat.add_comm]
      rw [hcong]
      rw [← List.map_map (fun i => ((a :: ts).drop (w + 1)).get? i) (fun i => i * (w + 1))]
      show optList ((a :: ts).get? (0 * (w + 1)) :: _) = _
      rw [show (0 * (w + 1)) = 0 by ring]
      show optList (some a :: _) = _
      rw [optList, ih _ hlen2, rowHeads]
      rfl

lemma deleteGo_append (I : List ℕ) : ∀ (r s : List ℚ) (k : ℕ),
    deleteGo I k (r ++ s) = deleteGo I k r ++ deleteGo I (k + r.length) s := by
  intro r
  induction r with
  | nil =>
    intro s k
    simp [deleteGo]
  | cons x xs ih =>
    intro s k
    rw [List.cons_append, deleteGo, deleteGo]
    by_cases hk : k ∈ I
    · rw [if_pos hk, if_pos hk, ih, List.length_cons,
        show k + (xs.length + 1) = k + 1 + xs.length by omega]
    · rw [if_neg hk, if_neg hk, ih, List.length_cons,
        show k + (xs.length + 1) = k + 1 + xs.length by omega, List.cons_append]

lemma deleteGo_keep (I : List ℕ) : ∀ (r : List ℚ) (k : ℕ),
    (∀ j, j < r.length → (k + j) ∉ I) → deleteGo I k r = r := by
  intro r
  induction r with
  | nil => intro k _; rfl
  | cons x xs ih =>
    intro k hnot
    rw [deleteGo]
    have h0 : k ∉ I := by
      have := hnot 0 (by simp)
      simpa using this
    rw [if_neg h0]
    congr 1
    refine ih (k + 1) ?_
    intro j hj
    have := hnot (j + 1) (by simp only [List.length_cons]; omega)
    rwa [show k + (j + 1) = k + 1 + j by omega] at this

lemma deleteGo_ext (I J : List ℕ) : ∀ (t : List ℚ) (k k2 : ℕ),
    (∀ m, (k + m ∈ I) ↔ (k2 + m ∈ J)) → deleteGo I k t = deleteGo J k2 t := by
  intro t
  induction t with
  | nil => intro _ _ _; rfl
  | cons x xs ih =>
    intro k k2 hmm
    have h0 : (k ∈ I) ↔ (k2 ∈ J) := by simpa using hmm 0
    have hrec := ih (k + 1) (k2 + 1) (fun m => by
      rw [show k + 1 + m = k + (m + 1) by omega, show k2 + 1 + m = k2 + (m + 1) by omega]
      exact hmm (m + 1))
    rw [deleteGo, deleteGo]
    by_cases hk : k ∈ I
    · rw [if_pos hk, if_pos (h0.mp hk), hrec]
    · rw [if_neg hk, if_neg (fun hx => hk (h0.mpr hx)), hrec]

lemma mem_stride_iff (w n m : ℕ) :
    m ∈ (List.range n).map (fun i => i * (w + 1)) ↔ ∃ i, i < n ∧ m = i * (w + 1) := by
  rw [List.mem_map]
  constructor
  · rintro ⟨i, hi, rfl⟩
    exact ⟨i, List.mem_range.mp hi, rfl⟩
  · rintro ⟨i, hi, rfl⟩
    exact ⟨i, List.mem_range.mpr hi, rfl⟩

lemma stride_shift (w hh m : ℕ) :
    ((w + 1) + m ∈ (List.range (hh + 1)).map (fun i => i * (w + 1))) ↔
      (m ∈ (List.range hh).map (fun i => i * (w + 1))) := by
  rw [mem_stride_iff, mem_stride_iff]
  constructor
  · rintro ⟨i, hi, he⟩
    match i, hi, he with
    | 0, hi, he =>
      rw [Nat.zero_mul] at he
      exact absurd he (by omega)
    | i + 1, hi, he =>
      refine ⟨i, by omega, ?_⟩
      rw [Nat.succ_mul, Nat.add_comm (i * (w + 1)) (w + 1)] at he
      exact Nat.add_left_cancel he
  · rintro ⟨i, hi, rfl⟩
    exact ⟨i + 1, by omega, by rw [Nat.succ_mul, Nat.add_comm]⟩

lemma deleteGo_behead (I : List ℕ) (r : List ℚ) (hk : 0 ∈ I)
    (hrest : ∀ j, 1 ≤ j → j < r.length → j ∉ I) : deleteGo I 0 r = r.drop 1 := by
  cases r with
  | nil => rfl
  | cons x xs =>
    rw [deleteGo, if_pos hk]
    show deleteGo I 1 xs = xs
    refine deleteGo_keep I xs 1 ?_
    intro j hj
    refine hrest (1 + j) (by omega) ?_
    rw [List.length_cons]
    omega

lemma deleteGo_stride (w : ℕ) : ∀ (h : ℕ) (t : List ℚ), t.length = (w + 1) * h →
    deleteGo ((List.range h).map (fun i => i * (w + 1))) 0 t = (rowTails w h t).flatten := by
  intro h
  induction h with
  | zero =>
    intro t ht
    have hnil : t = [] := List.length_eq_zero.mp (by rw [ht]; ring)
    subst hnil
    rfl
  | succ hh ih =>
    intro t ht
    have hge : w + 1 ≤ t.length := by
      rw [ht]
      exact Nat.le_mul_of_pos_right _ (by omega)
    have htake : (t.take (w + 1)).length = w + 1 := by
      rw [List.length_take]
      omega
    have hdrop : (t.drop (w + 1)).length = (w + 1) * hh := by
      rw [List.length_drop, ht, show (w + 1) * (hh + 1) = (w + 1) * hh + (w + 1) by ring]
      simp
    conv_lhs => rw [← List.take_append_drop (w + 1) t]
    rw [deleteGo_append]
    have hpart1 : deleteGo ((List.range (hh + 1)).map (fun i => i * (w + 1))) 0
        (t.take (w + 1)) = (t.take (w + 1)).drop 1 := by
      refine deleteGo_behead _ _ ?_ ?_
      · exact (mem_stride_iff w (hh + 1) 0).mpr ⟨0, by omega, by ring⟩
      · intro j hj1 hjlen hjmem
        obtain ⟨i, hi, he⟩ := (mem_stride_iff w (hh + 1) j).mp hjmem
        match i, hi, he with
        | 0, hi, he =>
          rw [Nat.zero_mul] at he
          omega
        | i + 1, hi, he =>
          have : w + 1 ≤ j := by
            rw [he, Nat.succ_mul]
            exact Nat.le_add_left _ _
          rw [htake] at hjlen
          omega
    have hpart2 : deleteGo ((List.range (hh + 1)).map (fun i => i * (w + 1)))
        (0 + (t.take (w + 1)).length) (t.drop (w + 1)) =
        deleteGo ((List.range hh).map (fun i => i * (w + 1))) 0 (t.drop (w + 1)) := by
      rw [htake, Nat.zero_add]
      refine deleteGo_ext _ _ _ _ _ ?_
      intro m
      rw [Nat.zero_add]
      exact stride_shift w hh m
    rw [hpart1, hpart2, ih _ hdrop]
    rw [rowTails, List.flatten_cons]
    congr 1
    rw [List.drop_take]
    norm_num

lemma rowTails_width (w : ℕ) (hw : 1 ≤ w) : ∀ (h : ℕ) (t : List ℚ),
    t.length = (w + 1) * h → ∀ r ∈ rowTails w h t, r.length = w := by
  intro h
  induction h with
  | zero => intro t _ r hr; exact absurd hr (by simp [rowTails])
  | succ hh ih =>
    intro t ht r hr
    have hge : w + 1 ≤ t.length := by
      rw [ht]
      exact Nat.le_mul_of_pos_right _ (by omega)
    have hdrop : (t.drop (w + 1)).length = (w + 1) * hh := by
      rw [List.length_drop, ht, show (w + 1) * (hh + 1) = (w + 1) * hh + (w + 1) by ring]
      simp
    rw [rowTails] at hr
    rcases List.mem_cons.mp hr with rfl | hr2
    · rw [List.length_take, List.length_drop]
      omega
    · exact ih _ hdrop r hr2

lemma npReshape_rows (w : ℕ) (hw : w ≠ 0) : ∀ (L : List (List ℚ)),
    (∀ r ∈ L, r.length = w) → npReshape L.flatten w = some L := by
  intro L
  induction L with
  | nil =>
    intro _
    rw [npReshape, if_neg hw]
    simp [chunkExact]
  | cons r L ih =>
    intro hlen
    have hr : r.length = w := hlen r (List.mem_cons_self _ _)
    have hLflat : ∀ x ∈ L, x.length = w := fun x hx => hlen x (List.mem_cons_of_mem _ hx)
    have hihres := ih hLflat
    rw [npReshape, if_neg hw] at hihres
    by_cases hmod : L.flatten.length % w = 0
    case neg =>
      rw [if_neg hmod] at hihres
      exact absurd hihres (by simp)
    rw [if_pos hmod] at hihres
    have hchunk := Option.some.inj hihres
    rw [npReshape, if_neg hw]
    have hlen2 : (r ++ L.flatten).length % w = 0 := by
      rw [List.length_append, hr, Nat.add_mod_left]
      exact hmod
    rw [List.flatten_cons, if_pos hlen2]
    congr 1
    rw [chunkExact, List.length_append, hr, Nat.add_comm w L.flatten.length,
      Nat.add_div_right _ (by omega), List.range_succ_eq_map, List.map_cons, List.map_map]
    have hhead : ((r ++ L.flatten).drop (0 * w)).take w = r := by
      rw [Nat.zero_mul, List.drop_zero]
      exact List.take_left' hr
    rw [hhead]
    have htail : ((List.range (L.flatten.length / w)).map
        ((fun i => ((r ++ L.flatten).drop (i * w)).take w) ∘ Nat.succ)) =
        ((List.range (L.flatten.length / w)).map (fun i => (L.flatten.drop (i * w)).take w)) := by
      refine List.map_congr_left ?_
      intro i _
      show (((r ++ L.flatten).drop (Nat.succ i * w)).take w) = ((L.flatten.drop (i * w)).take w)
      congr 1
      rw [Nat.succ_mul, Nat.add_comm (i * w) w, ← List.drop_drop, List.drop_left' hr]
    rw [htail, ← chunkExact, hchunk]

/-- The decode identity for a well-formed section stream: with `h ≤ w` and
exactly `(w+1)(h+1)` tokens, `decodeSection` returns the beta slice, the
per-row leading tokens as `N`, and the per-row remainders as the field
matrix. -/
lemma decodeSection_wf (w h : ℕ) (hw : 1 ≤ w) (hwh : h ≤ w) (toks : List ℚ)
    (hlen : toks.length = (w + 1) * (h + 1)) :
    decodeSection w h toks =
      some ((toks.drop 1).take w, rowHeads w h (toks.drop (w + 1)),
        rowTails w h (toks.drop (w + 1))) := by
  have hs : (toks.drop (w + 1)).length = (w + 1) * h := by
    rw [List.length_drop, hlen, show (w + 1) * (h + 1) = (w + 1) * h + (w + 1) by ring]
    simp
  simp only [decodeSection]
  rw [arange_stride w h hwh, optList_stride w h _ hs]
  rw [deleteGo_stride w h _ hs]
  rw [npReshape_rows w (by omega) _ (rowTails_width w hw h _ hs)]
  rfl

/-- C5 counterexample: with `width = 1`, `height = 2` and a well-formed
stream of `(1+1)*(2+1) = 6` tokens, the decoded speed vector has a single
entry (not `height = 2`) and the field matrix has three rows: the fancy
index `np.arange(0, width*height, width+1)` stops short when
`height > width`. -/
theorem speed_extraction_cex :
    decodeSection 1 2 [0, 7, 1, 10, 2, 20] = some ([7], [1], [[10], [2], [20]]) ∧
    ([1] : List ℚ).length = 1 ∧ (1 : ℕ) ≠ 2 ∧
    ([[10], [2], [20]] : List (List ℚ)).length ≠ 2 := by decide

/-- C5 amended: for `1 ≤ height ≤ width` and a stream of exactly
`(width+1)*(height+1)` tokens, the Section Reader extracts the leading
token of every `(width+1)`-token logical row as the speed vector — exactly
`height` values — and reshapes the remaining tokens row-major into the
`height × width` field matrix whose rows are the row remainders. -/
theorem speed_extraction_ok (w h : ℕ) (hw : 1 ≤ w) (hh : 1 ≤ h) (hwh : h ≤ w)
    (toks : List ℚ) (hlen : toks.length = (w + 1) * (h + 1)) :
    decodeSection w h toks =
      some ((toks.drop 1).take w, rowHeads w h (toks.drop (w + 1)),
        rowTails w h (toks.drop (w + 1))) ∧
    (rowHeads w h (toks.drop (w + 1))).length = h ∧
    (rowTails w h (toks.drop (w + 1))).length = h ∧
    (∀ r ∈ rowTails w h (toks.drop (w + 1)), r.length = w) := by
  have hs : (toks.drop (w + 1)).length = (w + 1) * h := by
    rw [List.length_drop, hlen, show (w + 1) * (h + 1) = (w + 1) * h + (w + 1) by ring]
    simp
  exact ⟨decodeSection_wf w h hw hwh toks hlen, rowHeads_length w h _,
    rowTails_count w h _, rowTails_width w hw h _ hs⟩

/-- Witness for C5 on the concrete stream `[9, 1, 2, 5, 10, 11]` with
`width = 2`, `height = 1`. -/
theorem speed_extraction_ok_inst :
    decodeSection 2 1 [9, 1, 2, 5, 10, 11] =
      some ((([9, 1, 2, 5, 10, 11] : List ℚ).drop 1).take 2,
        rowHeads 2 1 (([9, 1, 2, 5, 10, 11] : List ℚ).drop 3),
        rowTails 2 1 (([9, 1, 2, 5, 10, 11] : List ℚ).drop 3)) ∧
    (rowHeads 2 1 (([9, 1, 2, 5, 10, 11] : List ℚ).drop 3)).length = 1 := by
  have h := speed_extraction_ok 2 1 (by decide) (by decide) (by decide)
      [9, 1, 2, 5, 10, 11] (by decide)
  exact ⟨h.1, h.2.1⟩

/-!
## Loader-level lemmas shared by the shape-invariant and missing-header claims
-/

lemma stepMass_skip (w h : ℕ) (tline : List Char) (cur : List (List Char))
    (ak : LoadAcc × ℕ) (hm : massHit tline = false) :
    stepMass w h tline cur ak = some ak := by
  obtain ⟨a, k⟩ := ak
  simp [stepMass, hm]

lemma stepEff_skip (w h : ℕ) (tline : List Char) (cur : List (List Char))
    (ak : LoadAcc × ℕ) (he : effHit tline = false) :
    stepEff w h tline cur ak = some ak := by
  obtain ⟨a, k⟩ := ak
  simp [stepEff, he]

lemma stepPR_skip (w h : ℕ) (tline : List Char) (cur : List (List Char))
    (ak : LoadAcc × ℕ) (hp : prHit tline = false) :
    stepPR w h tline cur ak = some ak := by
  obtain ⟨a, k⟩ := ak
  simp [stepPR, hp]

lemma stepMin_skip (h : ℕ) (tline : List Char) (cur : List (List Char))
    (ak : LoadAcc × ℕ) (hm : minHit tline = false) :
    stepMin h tline cur ak = some ak := by
  obtain ⟨a, k⟩ := ak
  simp [stepMin, hm]

lemma stepMax_skip (h : ℕ) (tline : List Char) (cur : List (List Char))
    (ak : LoadAcc × ℕ) (hm : maxHit tline = false) :
    stepMax h tline cur ak = some ak := by
  obtain ⟨a, k⟩ := ak
  simp [stepMax, hm]

lemma stepMass_pres (w h : ℕ) (tline : List Char) (cur : List (List Char))
    (ak rk : LoadAcc × ℕ) (hstep : stepMass w h tline cur ak = some rk) :
    rk.1.g.efficiency = ak.1.g.efficiency ∧ rk.1.g.compression = ak.1.g.compression ∧
    rk.1.mPR = ak.1.mPR ∧ rk.1.MPR = ak.1.MPR := by
  obtain ⟨a, k⟩ := ak
  rw [stepMass] at hstep
  by_cases hm : massHit tline
  · rw [if_pos hm] at hstep
    obtain ⟨r, hr, hf⟩ := Option.map_eq_some'.mp hstep
    rw [← hf]
    exact ⟨rfl, rfl, rfl, rfl⟩
  · rw [if_neg hm] at hstep
    rw [← Option.some.inj hstep]
    exact ⟨rfl, rfl, rfl, rfl⟩

lemma stepEff_pres (w h : ℕ) (tline : List Char) (cur : List (List Char))
    (ak rk : LoadAcc × ℕ) (hstep : stepEff w h tline cur ak = some rk) :
    rk.1.g.massFlow = ak.1.g.massFlow ∧ rk.1.g.compression = ak.1.g.compression ∧
    rk.1.mPR = ak.1.mPR ∧ rk.1.MPR = ak.1.MPR := by
  obtain ⟨a, k⟩ := ak
  rw [stepEff] at hstep
  by_cases hm : effHit tline
  · rw [if_pos hm] at hstep
    obtain ⟨r, hr, hf⟩ := Option.map_eq_some'.mp hstep
    rw [← hf]
    exact ⟨rfl, rfl, rfl, rfl⟩
  · rw [if_neg hm] at hstep
    rw [← Option.some.inj hstep]
    exact ⟨rfl, rfl, rfl, rfl⟩

lemma stepPR_pres (w h : ℕ) (tline : List Char) (cur : List (List Char))
    (ak rk : LoadAcc × ℕ) (hstep : stepPR w h tline cur ak = some rk) :
    rk.1.g.massFlow = ak.1.g.massFlow ∧ rk.1.g.efficiency = ak.1.g.efficiency ∧
    rk.1.mPR = ak.1.mPR ∧ rk.1.MPR = ak.1.MPR := by
  obtain ⟨a, k⟩ := ak
  rw [stepPR] at hstep
  by_cases hm : prHit tline
  · rw [if_pos hm] at hstep
    obtain ⟨r, hr, hf⟩ := Option.map_eq_some'.mp hstep
    rw [← hf]
    exact ⟨rfl, rfl, rfl, rfl⟩
  · rw [if_neg hm] at hstep
    rw [← Option.some.inj hstep]
    exact ⟨rfl, rfl, rfl, rfl⟩

lemma stepMin_pres (h : ℕ) (tline : List Char) (cur : List (List Char))
    (ak rk : LoadAcc × ℕ) (hstep : stepMin h tline cur ak = some rk) :
    rk.1.g = ak.1.g ∧ rk.1.MPR = ak.1.MPR := by
  obtain ⟨a, k⟩ := ak
  rw [stepMin] at hstep
  by_cases hm : minHit tline
  · rw [if_pos hm] at hstep
    obtain ⟨r, hr, hf⟩ := Option.map_eq_some'.mp hstep
    rw [← hf]
    exact ⟨rfl, rfl⟩
  · rw [if_neg hm] at hstep
    rw [← Option.some.inj hstep]
    exact ⟨rfl, rfl⟩

lemma stepMax_pres (h : ℕ) (tline : List Char) (cur : List (List Char))
    (ak rk : LoadAcc × ℕ) (hstep : stepMax h tline cur ak = some rk) :
    rk.1.g = ak.1.g ∧ rk.1.mPR = ak.1.mPR := by
  obtain ⟨a, k⟩ := ak
  rw [stepMax] at hstep
  by_cases hm : maxHit tline
  · rw [if_pos hm] at hstep
    obtain ⟨r, hr, hf⟩ := Option.map_eq_some'.mp hstep
    rw [← hf]
    exact ⟨rfl, rfl⟩
  · rw [if_neg hm] at hstep
    rw [← Option.some.inj hstep]
    exact ⟨rfl, rfl⟩

lemma loadLine_split (w h : ℕ) (tline : List Char) (cur : List (List Char))
    (a : LoadAcc) (rk : LoadAcc × ℕ) (hl : loadLine w h tline cur a = some rk) :
    ∃ r1 r2 r3 r4, stepMass w h tline cur (a, 0) = some r1 ∧
      stepEff w h tline cur r1 = some r2 ∧ stepPR w h tline cur r2 = some r3 ∧
      stepMin h tline cur r3 = some r4 ∧ stepMax h tline cur r4 = some rk := by
  rw [loadLine] at hl
  rcases h1 : stepMass w h tline cur (a, 0) with _ | r1
  · rw [h1] at hl
    simp at hl
  rw [h1] at hl
  simp only [Option.some_bind] at hl
  rcases h2 : stepEff w h tline cur r1 with _ | r2
  · rw [h2] at hl
    simp at hl
  rw [h2] at hl
  simp only [Option.some_bind] at hl
  rcases h3 : stepPR w h tline cur r2 with _ | r3
  · rw [h3] at hl
    simp at hl
  rw [h3] at hl
  simp only [Option.some_bind] at hl
  rcases h4 : stepMin h tline cur r3 with _ | r4
  · rw [h4] at hl
    simp at hl
  rw [h4] at hl
  simp only [Option.some_bind] at hl
  exact ⟨r1, r2, r3, r4, rfl, h2, h3, h4, hl⟩

lemma loadLine_massFlow (w h : ℕ) (tline : List Char) (cur : List (List Char))
    (a : LoadAcc) (rk : LoadAcc × ℕ) (hm : massHit tline = false)
    (hl : loadLine w h tline cur a = some rk) : rk.1.g.massFlow = a.g.massFlow := by
  obtain ⟨r1, r2, r3, r4, h1, h2, h3, h4, h5⟩ := loadLine_split w h tline cur a rk hl
  rw [stepMass_skip w h tline cur (a, 0) hm] at h1
  rw [(stepMax_pres h tline cur r4 rk h5).1, (stepMin_pres h tline cur r3 r4 h4).1,
    (stepPR_pres w h tline cur r2 r3 h3).1, (stepEff_pres w h tline cur r1 r2 h2).1,
    ← Option.some.inj h1]

lemma loadLine_efficiency (w h : ℕ) (tline : List Char) (cur : List (List Char))
    (a : LoadAcc) (rk : LoadAcc × ℕ) (he : effHit tline = false)
    (hl : loadLine w h tline cur a = some rk) : rk.1.g.efficiency = a.g.efficiency := by
  obtain ⟨r1, r2, r3, r4, h1, h2, h3, h4, h5⟩ := loadLine_split w h tline cur a rk hl
  rw [stepEff_skip w h tline cur r1 he] at h2
  rw [(stepMax_pres h tline cur r4 rk h5).1, (stepMin_pres h tline cur r3 r4 h4).1,
    (stepPR_pres w h tline cur r2 r3 h3).2.1, ← Option.some.inj h2,
    (stepMass_pres w h tline cur (a, 0) r1 h1).1]

lemma loadLine_compression (w h : ℕ) (tline : List Char) (cur : List (List Char))
    (a : LoadAcc) (rk : LoadAcc × ℕ) (hp : prHit tline = false)
    (hl : loadLine w h tline cur a = some rk) : rk.1.g.compression = a.g.compression := by
  obtain ⟨r1, r2, r3, r4, h1, h2, h3, h4, h5⟩ := loadLine_split w h tline cur a rk hl
  rw [stepPR_skip w h tline cur r2 hp] at h3
  rw [(stepMax_pres h tline cur r4 rk h5).1, (stepMin_pres h tline cur r3 r4 h4).1,
    ← Option.some.inj h3, (stepEff_pres w h tline cur r1 r2 h2).2.1,
    (stepMass_pres w h tline cur (a, 0) r1 h1).2.1]

lemma loadLine_mPR (w h : ℕ) (tline : List Char) (cur : List (List Char))
    (a : LoadAcc) (rk : LoadAcc × ℕ) (hm : minHit tline = false)
    (hl : loadLine w h tline cur a = some rk) : rk.1.mPR = a.mPR := by
  obtain ⟨r1, r2, r3, r4, h1, h2, h3, h4, h5⟩ := loadLine_split w h tline cur a rk hl
  rw [stepMin_skip h tline cur r3 hm] at h4
  rw [(stepMax_pres h tline cur r4 rk h5).2, ← Option.some.inj h4,
    (stepPR_pres w h tline cur r2 r3 h3).2.2.1, (stepEff_pres w h tline cur r1 r2 h2).2.2.1,
    (stepMass_pres w h tline cur (a, 0) r1 h1).2.2.1]

lemma loadLine_skip (w h : ℕ) (tline : List Char) (cur : List (List Char)) (a : LoadAcc)
    (h1 : massHit tline = false) (h2 : effHit tline = false) (h3 : prHit tline = false)
    (h4 : minHit tline = false) (h5 : maxHit tline = false) :
    loadLine w h tline cur a = some (a, 0) := by
  rw [loadLine, stepMass_skip w h tline cur (a, 0) h1]
  simp only [Option.some_bind]
  rw [stepEff_skip w h tline cur (a, 0) h2]
  simp only [Option.some_bind]
  rw [stepPR_skip w h tline cur (a, 0) h3]
  simp only [Option.some_bind]
  rw [stepMin_skip h tline cur (a, 0) h4]
  simp only [Option.some_bind]
  exact stepMax_skip h tline cur (a, 0) h5

lemma mem_of_cursor {cur : List (List Char)} {k : ℕ} {l : List Char}
    (hl : l ∈ cur.drop k) : l ∈ cur :=
  (List.drop_sublist k cur).subset hl

lemma loadGo_massFlow (w h : ℕ) : ∀ (fuel : ℕ) (cur : List (List Char)) (a acc2 : LoadAcc),
    (∀ l ∈ cur, massHit l = false) → loadGo w h fuel cur a = some acc2 →
    acc2.g.massFlow = a.g.massFlow := by
  intro fuel
  induction fuel with
  | zero =>
    intro cur a acc2 _ hrun
    cases cur with
    | nil => rw [← Option.some.inj hrun]
    | cons t r => exact absurd hrun (by rw [loadGo]; simp)
  | succ f ih =>
    intro cur a acc2 hno hrun
    cases cur with
    | nil => rw [← Option.some.inj hrun]
    | cons tline rest =>
      rw [loadGo] at hrun
      rcases hline : loadLine w h tline rest a with _ | rk
      · rw [hline] at hrun
        exact absurd hrun (by simp)
      rw [hline] at hrun
      have hstep := loadLine_massFlow w h tline rest a rk
        (hno tline (List.mem_cons_self _ _)) hline
      have hrest : ∀ l ∈ rest.drop rk.2, massHit l = false := fun l hl =>
        hno l (List.mem_cons_of_mem _ (mem_of_cursor hl))
      rw [ih _ _ _ hrest hrun, hstep]

lemma loadGo_efficiency (w h : ℕ) : ∀ (fuel : ℕ) (cur : List (List Char)) (a acc2 : LoadAcc),
    (∀ l ∈ cur, effHit l = false) → loadGo w h fuel cur a = some acc2 →
    acc2.g.efficiency = a.g.efficiency := by
  intro fuel
  induction fuel with
  | zero =>
    intro cur a acc2 _ hrun
    cases cur with
    | nil => rw [← Option.some.inj hrun]
    | cons t r => exact absurd hrun (by rw [loadGo]; simp)
  | succ f ih =>
    intro cur a acc2 hno hrun
    cases cur with
    | nil => rw [← Option.some.inj hrun]
    | cons tline rest =>
      rw [loadGo] at hrun
      rcases hline : loadLine w h tline rest a with _ | rk
      · rw [hline] at hrun
        exact absurd hrun (by simp)
      rw [hline] at hrun
      have hstep := loadLine_efficiency w h tline rest a rk
        (hno tline (List.mem_cons_self _ _)) hline
      have hrest : ∀ l ∈ rest.drop rk.2, effHit l = false := fun l hl =>
        hno l (List.mem_cons_of_mem _ (mem_of_cursor hl))
      rw [ih _ _ _ hrest hrun, hstep]

lemma loadGo_compression (w h : ℕ) : ∀ (fuel : ℕ) (cur : List (List Char)) (a acc2 : LoadAcc),
    (∀ l ∈ cur, prHit l = false) → loadGo w h fuel cur a = some acc2 →
    acc2.g.compression = a.g.compression := by
  intro fuel
  induction fuel with
  | zero =>
    intro cur a acc2 _ hrun
    cases cur with
    | nil => rw [← Option.some.inj hrun]
    | cons t r => exact absurd hrun (by rw [loadGo]; simp)
  | succ f ih =>
    intro cur a acc2 hno hrun
    cases cur with
    | nil => rw [← Option.some.inj hrun]
    | cons tline rest =>
      rw [loadGo] at hrun
      rcases hline : loadLine w h tline rest a with _ | rk
      · rw [hline] at hrun
        exact absurd hrun (by simp)
      rw [hline] at hrun
      have hstep := loadLine_compression w h tline rest a rk
        (hno tline (List.mem_cons_self _ _)) hline
      have hrest : ∀ l ∈ rest.drop rk.2, prHit l = false := fun l hl =>
        hno l (List.mem_cons_of_mem _ (mem_of_cursor hl))
      rw [ih _ _ _ hrest hrun, hstep]

lemma loadGo_mPR (w h : ℕ) : ∀ (fuel : ℕ) (cur : List (List Char)) (a acc2 : LoadAcc),
    (∀ l ∈ cur, minHit l = false) → loadGo w h fuel cur a = some acc2 →
    acc2.mPR = a.mPR := by
  intro fuel
  induction fuel with
  | zero =>
    intro cur a acc2 _ hrun
    cases cur with
    | nil => rw [← Option.some.inj hrun]
    | cons t r => exact absurd hrun (by rw [loadGo]; simp)
  | succ f ih =>
    intro cur a acc2 hno hrun
    cases cur with
    | nil => rw [← Option.some.inj hrun]
    | cons tline rest =>
      rw [loadGo] at hrun
      rcases hline : loadLine w h tline rest a with _ | rk
      · rw [hline] at hrun
        exact absurd hrun (by simp)
      rw [hline] at hrun
      have hstep := loadLine_mPR w h tline rest a rk
        (hno tline (List.mem_cons_self _ _)) hline
      have hrest : ∀ l ∈ rest.drop rk.2, minHit l = false := fun l hl =>
        hno l (List.mem_cons_of_mem _ (mem_of_cursor hl))
      rw [ih _ _ _ hrest hrun, hstep]

lemma loadGo_id (w h : ℕ) : ∀ (fuel : ℕ) (cur : List (List Char)) (a : LoadAcc),
    cur.length ≤ fuel →
    (∀ l ∈ cur, massHit l = false ∧ effHit l = false ∧ prHit l = false ∧
      minHit l = false ∧ maxHit l = false) →
    loadGo w h fuel cur a = some a := by
  intro fuel
  induction fuel with
  | zero =>
    intro cur a hfuel _
    cases cur with
    | nil => rfl
    | cons t r => exact absurd hfuel (by simp)
  | succ f ih =>
    intro cur a hfuel hno
    cases cur with
    | nil => rfl
    | cons tline rest =>
      obtain ⟨hm1, hm2, hm3, hm4, hm5⟩ := hno tline (List.mem_cons_self _ _)
      rw [loadGo, loadLine_skip w h tline rest a hm1 hm2 hm3 hm4 hm5]
      show loadGo w h f (List.drop 0 rest) a = some a
      rw [List.drop_zero]
      refine ih rest a ?_ (fun l hl => hno l (List.mem_cons_of_mem _ hl))
      rw [List.length_cons] at hfuel
      omega

lemma reconstruct_pres (w h : ℕ) (acc : LoadAcc) (g : GTMap)
    (hr : reconstructTurbine w h acc = some g) :
    g.massFlow = acc.g.massFlow ∧ g.efficiency = acc.g.efficiency ∧
    g.beta = acc.g.beta ∧ g.N = acc.g.N := by
  rw [reconstructTurbine] at hr
  by_cases h0 : acc.mPR.length = 0
  · rw [if_pos h0] at hr
    rw [← Option.some.inj hr]
    exact ⟨rfl, rfl, rfl, rfl⟩
  · rw [if_neg h0] at hr
    by_cases hc : acc.mPR.length ≤ h ∧ acc.mPR.length ≤ acc.MPR.length
    · rw [if_pos hc] at hr
      rw [← Option.some.inj hr]
      exact ⟨rfl, rfl, rfl, rfl⟩
    · rw [if_neg hc] at hr
      exact absurd hr (by simp)

/-!
## Claim C9: silent defaulting of missing sections
-/

/-- C9 counterexample: the file `["Efficiency", "abc"]` contains no
`"Mass Flow"` header, yet the load does not complete: the Efficiency
section that is present hits the unparsable token `"abc"` and the whole
load aborts.  A missing header alone does not guarantee an error-free
load. -/
theorem missing_header_cex :
    massHit (("Efficiency").data) = false ∧ massHit (("abc").data) = false ∧
    readMapGT 1 1 [("Efficiency").data, ("abc").data] = none := by decide

/-- C9 amended: a section header that never occurs raises no error by
itself: whenever the load completes, the field of a never-hit header keeps
its zero-initialized default (for the pressure-ratio matrix, when neither
the compressor branch nor the Min bound branch ever fires); and a file
with no recognized headers at all always loads, returning every field at
its default. -/
theorem missing_header_defaults (w h : ℕ) (lines : List (List Char)) :
    ((∀ l ∈ lines, massHit l = false) →
      ∀ g, readMapGT w h lines = some g → g.massFlow = defaultGrids.massFlow) ∧
    ((∀ l ∈ lines, effHit l = false) →
      ∀ g, readMapGT w h lines = some g → g.efficiency = defaultGrids.efficiency) ∧
    ((∀ l ∈ lines, prHit l = false ∧ minHit l = false) →
      ∀ g, readMapGT w h lines = some g → g.compression = defaultGrids.compression) ∧
    ((∀ l ∈ lines, massHit l = false ∧ effHit l = false ∧ prHit l = false ∧
        minHit l = false ∧ maxHit l = false) →
      readMapGT w h lines = some defaultGrids) := by
  refine ⟨?_, ?_, ?_, ?_⟩
  · intro hno g hg
    rw [readMapGT] at hg
    rcases hloop : loadLoop w h lines ⟨defaultGrids, [], []⟩ with _ | acc
    · rw [hloop] at hg
      exact absurd hg (by simp)
    rw [hloop] at hg
    rw [(reconstruct_pres w h acc g hg).1]
    exact loadGo_massFlow w h _ _ _ _ hno hloop
  · intro hno g hg
    rw [readMapGT] at hg
    rcases hloop : loadLoop w h lines ⟨defaultGrids, [], []⟩ with _ | acc
    · rw [hloop] at hg
      exact absurd hg (by simp)
    rw [hloop] at hg
    rw [(reconstruct_pres w h acc g hg).2.1]
    exact loadGo_efficiency w h _ _ _ _ hno hloop
  · intro hno g hg
    rw [readMapGT] at hg
    rcases hloop : loadLoop w h lines ⟨defaultGrids, [], []⟩ with _ | acc
    · rw [hloop] at hg
      exact absurd hg (by simp)
    rw [hloop] at hg
    have hmPR : acc.mPR = [] :=
      loadGo_mPR w h _ _ _ _ (fun l hl => (hno l hl).2) hloop
    have hg2 : reconstructTurbine w h acc = some g := hg
    rw [reconstructTurbine, if_pos (show acc.mPR.length = 0 by rw [hmPR]; rfl)] at hg2
    rw [← Option.some.inj hg2]
    exact loadGo_compression w h _ _ _ _ (fun l hl => (hno l hl).1) hloop
  · intro hno
    rw [readMapGT, loadLoop, loadGo_id w h _ _ _ (le_refl _) hno]
    show reconstructTurbine w h ⟨defaultGrids, [], []⟩ = some defaultGrids
    rw [reconstructTurbine]
    simp

/-- Witness for C9: a one-line file with no recognized header loads
successfully with all fields at their defaults. -/
theorem missing_header_defaults_inst :
    readMapGT 1 1 [("x").data] = some defaultGrids ∧
    defaultGrids.massFlow = defaultGrids.massFlow := by
  have h := missing_header_defaults 1 1 [("x").data]
  refine ⟨h.2.2.2 (by decide), ?_⟩
  exact h.1 (by decide) defaultGrids (h.2.2.2 (by decide))

/-!
## Claim C1: the shape invariant of a loaded map
-/

/-- Shape predicate: a `rows × cols` matrix. -/
def matShape (M : List (List ℚ)) (rows cols : ℕ) : Prop :=
  M.length = rows ∧ ∀ r ∈ M, r.length = cols

lemma loadGo_nil (w h : ℕ) (f : ℕ) (a : LoadAcc) : loadGo w h f [] a = some a := by
  cases f <;> rfl

lemma stepMass_hit (w h : ℕ) (tline : List Char) (cur : List (List Char))
    (a : LoadAcc) (k : ℕ) (r : (List ℚ × List ℚ × List (List ℚ)) × ℕ)
    (hm : massHit tline = true) (hsec : secRead w h cur k = some r) :
    stepMass w h tline cur (a, k) = some
      ({ a with g := { a.g with beta := r.1.1, N := r.1.2.1, massFlow := r.1.2.2 } }, r.2) := by
  rw [stepMass, hm, if_pos rfl, hsec]
  rfl

lemma stepEff_hit (w h : ℕ) (tline : List Char) (cur : List (List Char))
    (a : LoadAcc) (k : ℕ) (r : (List ℚ × List ℚ × List (List ℚ)) × ℕ)
    (hm : effHit tline = true) (hsec : secRead w h cur k = some r) :
    stepEff w h tline cur (a, k) = some
      ({ a with g := { a.g with beta := r.1.1, N := r.1.2.1, efficiency := r.1.2.2 } }, r.2) := by
  rw [stepEff, hm, if_pos rfl, hsec]
  rfl

lemma stepPR_hit (w h : ℕ) (tline : List Char) (cur : List (List Char))
    (a : LoadAcc) (k : ℕ) (r : (List ℚ × List ℚ × List (List ℚ)) × ℕ)
    (hm : prHit tline = true) (hsec : secRead w h cur k = some r) :
    stepPR w h tline cur (a, k) = some
      ({ a with g := { a.g with beta := r.1.1, N := r.1.2.1, compression := r.1.2.2 } }, r.2) := by
  rw [stepPR, hm, if_pos rfl, hsec]
  rfl

lemma secRead_at (w h : ℕ) (B rest2 : List (List Char)) (s : List ℚ)
    (r : List ℚ × List ℚ × List (List ℚ))
    (hb : B.length = secLineCount w h) (ht : tokYes B = some s)
    (hdec : decodeSection w h s = some r) :
    secRead w h (B ++ rest2) 0 = some (r, secLineCount w h) := by
  rw [secRead, List.drop_zero, List.take_left' hb, ht]
  show (match decodeSection w h s with
    | none => none
    | some rr => some (rr, 0 + secLineCount w h)) = some (r, secLineCount w h)
  rw [hdec, Nat.zero_add]

lemma loadLine_massOnly (w h : ℕ) (tline : List Char) (cur : List (List Char)) (a : LoadAcc)
    (r : List ℚ × List ℚ × List (List ℚ))
    (h1 : massHit tline = true) (h2 : effHit tline = false) (h3 : prHit tline = false)
    (h4 : minHit tline = false) (h5 : maxHit tline = false)
    (hsec : secRead w h cur 0 = some (r, secLineCount w h)) :
    loadLine w h tline cur a = some
      ({ a with g := { a.g with beta := r.1, N := r.2.1, massFlow := r.2.2 } },
        secLineCount w h) := by
  rw [loadLine, stepMass_hit w h tline cur a 0 (r, secLineCount w h) h1 hsec]
  simp only [Option.some_bind]
  rw [stepEff_skip w h tline cur _ h2]
  simp only [Option.some_bind]
  rw [stepPR_skip w h tline cur _ h3]
  simp only [Option.some_bind]
  rw [stepMin_skip h tline cur _ h4]
  simp only [Option.some_bind]
  exact stepMax_skip h tline cur _ h5

lemma loadLine_effOnly (w h : ℕ) (tline : List Char) (cur : List (List Char)) (a : LoadAcc)
    (r : List ℚ × List ℚ × List (List ℚ))
    (h1 : massHit tline = false) (h2 : effHit tline = true) (h3 : prHit tline = false)
    (h4 : minHit tline = false) (h5 : maxHit tline = false)
    (hsec : secRead w h cur 0 = some (r, secLineCount w h)) :
    loadLine w h tline cur a = some
      ({ a with g := { a.g with beta := r.1, N := r.2.1, efficiency := r.2.2 } },
        secLineCount w h) := by
  rw [loadLine, stepMass_skip w h tline cur _ h1]
  simp only [Option.some_bind]
  rw [stepEff_hit w h tline cur a 0 (r, secLineCount w h) h2 hsec]
  simp only [Option.some_bind]
  rw [stepPR_skip w h tline cur _ h3]
  simp only [Option.some_bind]
  rw [stepMin_skip h tline cur _ h4]
  simp only [Option.some_bind]
  exact stepMax_skip h tline cur _ h5

lemma loadLine_prOnly (w h : ℕ) (tline : List Char) (cur : List (List Char)) (a : LoadAcc)
    (r : List ℚ × List ℚ × List (List ℚ))
    (h1 : massHit tline = false) (h2 : effHit tline = false) (h3 : prHit tline = true)
    (h4 : minHit tline = false) (h5 : maxHit tline = false)
    (hsec : secRead w h cur 0 = some (r, secLineCount w h)) :
    loadLine w h tline cur a = some
      ({ a with g := { a.g with beta := r.1, N := r.2.1, compression := r.2.2 } },
        secLineCount w h) := by
  rw [loadLine, stepMass_skip w h tline cur _ h1]
  simp only [Option.some_bind]
  rw [stepEff_skip w h tline cur _ h2]
  simp only [Option.some_bind]
  rw [stepPR_hit w h tline cur a 0 (r, secLineCount w h) h3 hsec]
  simp only [Option.some_bind]
  rw [stepMin_skip h tline cur _ h4]
  simp only [Option.some_bind]
  exact stepMax_skip h tline cur _ h5

lemma loadGo_secMass (w h f : ℕ) (tline : List Char) (B rest2 : List (List Char))
    (s : List ℚ) (r : List ℚ × List ℚ × List (List ℚ)) (a : LoadAcc)
    (h1 : massHit tline = true) (h2 : effHit tline = false) (h3 : prHit tline = false)
    (h4 : minHit tline = false) (h5 : maxHit tline = false)
    (hb : B.length = secLineCount w h) (ht : tokYes B = some s)
    (hdec : decodeSection w h s = some r) :
    loadGo w h (f + 1) (tline :: (B ++ rest2)) a = loadGo w h f rest2
      { a with g := { a.g with beta := r.1, N := r.2.1, massFlow := r.2.2 } } := by
  show (match loadLine w h tline (B ++ rest2) a with
    | none => none
    | some rk => loadGo w h f ((B ++ rest2).drop rk.2) rk.1) = _
  rw [loadLine_massOnly w h tline (B ++ rest2) a r h1 h2 h3 h4 h5
    (secRead_at w h B rest2 s r hb ht hdec)]
  show loadGo w h f ((B ++ rest2).drop (secLineCount w h)) _ = _
  rw [List.drop_left' hb]

lemma loadGo_secEff (w h f : ℕ) (tline : List Char) (B rest2 : List (List Char))
    (s : List ℚ) (r : List ℚ × List ℚ × List (List ℚ)) (a : LoadAcc)
    (h1 : massHit tline = false) (h2 : effHit tline = true) (h3 : prHit tline = false)
    (h4 : minHit tline = false) (h5 : maxHit tline = false)
    (hb : B.length = secLineCount w h) (ht : tokYes B = some s)
    (hdec : decodeSection w h s = some r) :
    loadGo w h (f + 1) (tline :: (B ++ rest2)) a = loadGo w h f rest2
      { a with g := { a.g with beta := r.1, N := r.2.1, efficiency := r.2.2 } } := by
  show (match loadLine w h tline (B ++ rest2) a with
    | none => none
    | some rk => loadGo w h f ((B ++ rest2).drop rk.2) rk.1) = _
  rw [loadLine_effOnly w h tline (B ++ rest2) a r h1 h2 h3 h4 h5
    (secRead_at w h B rest2 s r hb ht hdec)]
  show loadGo w h f ((B ++ rest2).drop (secLineCount w h)) _ = _
  rw [List.drop_left' hb]

lemma loadGo_secPR (w h f : ℕ) (tline : List Char) (B rest2 : List (List Char))
    (s : List ℚ) (r : List ℚ × List ℚ × List (List ℚ)) (a : LoadAcc)
    (h1 : massHit tline = false) (h2 : effHit tline = false) (h3 : prHit tline = true)
    (h4 : minHit tline = false) (h5 : maxHit tline = false)
    (hb : B.length = secLineCount w h) (ht : tokYes B = some s)
    (hdec : decodeSection w h s = some r) :
    loadGo w h (f + 1) (tline :: (B ++ rest2)) a = loadGo w h f rest2
      { a with g := { a.g with beta := r.1, N := r.2.1, compression := r.2.2 } } := by
  show (match loadLine w h tline (B ++ rest2) a with
    | none => none
    | some rk => loadGo w h f ((B ++ rest2).drop rk.2) rk.1) = _
  rw [loadLine_prOnly w h tline (B ++ rest2) a r h1 h2 h3 h4 h5
    (secRead_at w h B rest2 s r hb ht hdec)]
  show loadGo w h f ((B ++ rest2).drop (secLineCount w h)) _ = _
  rw [List.drop_left' hb]

/-- C1 counterexample: two successful loads that violate the shape
invariant.  First, an empty `.Map` file loads without error for
`width = 3`, `height = 2` but leaves the default 10 × 10 grids.  Second,
a well-formed single-section file with `width = 1 < height = 2` loads
without error yet yields a speed vector of length 1 and a 3 × 1 mass-flow
matrix. -/
theorem load_shape_cex :
    readMapGT 3 2 [] = some defaultGrids ∧
    defaultGrids.massFlow.length = 10 ∧ (10 : ℕ) ≠ 2 ∧
    readMapGT 1 2 [("Mass Flow").data, ("0 7").data, ("1 10").data, ("2 20").data] =
      some { defaultGrids with beta := [7], N := [1], massFlow := [[10], [2], [20]] } ∧
    ([1] : List ℚ).length ≠ 2 := by decide

/-- C1 amended: for `1 ≤ height ≤ width` and a compressor-layout file —
the three field headers in order, each followed by a block of exactly
`secLineCount` lines tokenizing to `(width+1)*(height+1)` values — the
load succeeds and the loaded map satisfies the shape invariant:
`massFlow`, `efficiency` and the pressure-ratio matrix all have shape
`height × width`, `beta` has length `width`, and `N` has length
`height`. -/
theorem load_shape_invariant (w h : ℕ) (hw : 1 ≤ w) (hh : 1 ≤ h) (hwh : h ≤ w)
    (B1 B2 B3 : List (List Char)) (s1 s2 s3 : List ℚ)
    (hb1 : B1.length = secLineCount w h) (ht1 : tokYes B1 = some s1)
    (hs1 : s1.length = (w + 1) * (h + 1))
    (hb2 : B2.length = secLineCount w h) (ht2 : tokYes B2 = some s2)
    (hs2 : s2.length = (w + 1) * (h + 1))
    (hb3 : B3.length = secLineCount w h) (ht3 : tokYes B3 = some s3)
    (hs3 : s3.length = (w + 1) * (h + 1)) :
    readMapGT w h (hMass :: (B1 ++ (hEff :: (B2 ++ (hPR :: B3))))) ≠ none ∧
    ∀ g, readMapGT w h (hMass :: (B1 ++ (hEff :: (B2 ++ (hPR :: B3))))) = some g →
      matShape g.massFlow h w ∧ matShape g.efficiency h w ∧
      matShape g.compression h w ∧ g.beta.length = w ∧ g.N.length = h := by
  have hd1 := decodeSection_wf w h hw hwh s1 hs1
  have hd2 := decodeSection_wf w h hw hwh s2 hs2
  have hd3 := decodeSection_wf w h hw hwh s3 hs3
  have hs1' : (s1.drop (w + 1)).length = (w + 1) * h := by
    rw [List.length_drop, hs1, show (w + 1) * (h + 1) = (w + 1) * h + (w + 1) by ring]
    simp
  have hs2' : (s2.drop (w + 1)).length = (w + 1) * h := by
    rw [List.length_drop, hs2, show (w + 1) * (h + 1) = (w + 1) * h + (w + 1) by ring]
    simp
  have hs3' : (s3.drop (w + 1)).length = (w + 1) * h := by
    rw [List.length_drop, hs3, show (w + 1) * (h + 1) = (w + 1) * h + (w + 1) by ring]
    simp
  have hrun : readMapGT w h (hMass :: (B1 ++ (hEff :: (B2 ++ (hPR :: B3))))) =
      some ⟨(s3.drop 1).take w, rowHeads w h (s3.drop (w + 1)),
        rowTails w h (s1.drop (w + 1)), rowTails w h (s2.drop (w + 1)),
        rowTails w h (s3.drop (w + 1))⟩ := by
    rw [readMapGT, loadLoop, List.length_cons]
    rw [loadGo_secMass w h _ hMass B1 (hEff :: (B2 ++ (hPR :: B3))) s1 _ _
      (by decide) (by decide) (by decide) (by decide) (by decide) hb1 ht1 hd1]
    rw [show (B1 ++ (hEff :: (B2 ++ (hPR :: B3)))).length =
        (B1.length + (B2 ++ (hPR :: B3)).length) + 1 by
      rw [List.length_append, List.length_cons]
      omega]
    rw [loadGo_secEff w h _ hEff B2 (hPR :: B3) s2 _ _
      (by decide) (by decide) (by decide) (by decide) (by decide) hb2 ht2 hd2]
    rw [show B1.length + (B2 ++ (hPR :: B3)).length =
        (B1.length + B2.length + B3.length) + 1 by
      rw [List.length_append, List.length_cons]
      omega]
    rw [show (hPR :: B3) = hPR :: (B3 ++ ([] : List (List Char))) by rw [List.append_nil]]
    rw [loadGo_secPR w h _ hPR B3 [] s3 _ _
      (by decide) (by decide) (by decide) (by decide) (by decide) hb3 ht3 hd3]
    rw [loadGo_nil]
    rfl
  refine ⟨by rw [hrun]; simp, ?_⟩
  intro g hg
  rw [hrun] at hg
  rw [← Option.some.inj hg]
  have hbeta : (((s3.drop 1).take w).length) = w := by
    have hge : w + 1 ≤ s3.length := by
      rw [hs3]
      exact Nat.le_mul_of_pos_right _ (by omega)
    rw [List.length_take, List.length_drop]
    omega
  exact ⟨⟨rowTails_count w h _, rowTails_width w hw h _ hs1'⟩,
    ⟨rowTails_count w h _, rowTails_width w hw h _ hs2'⟩,
    ⟨rowTails_count w h _, rowTails_width w hw h _ hs3'⟩,
    hbeta, rowHeads_length w h _⟩

/-- The concrete `width = 1`, `height = 1` compressor file for the C1
witness. -/
def fileC1 : List (List Char) :=
  hMass :: ([("0 1").data, ("5 9").data] ++ (hEff :: ([("0 1").data, ("5 8").data] ++
    (hPR :: [("0 1").data, ("5 7").data]))))

/-- Witness for C1 on a concrete well-formed compressor file. -/
theorem load_shape_invariant_inst : readMapGT 1 1 fileC1 ≠ none := by
  have h := load_shape_invariant 1 1 (by decide) (by decide) (by decide)
    [("0 1").data, ("5 9").data] [("0 1").data, ("5 8").data] [("0 1").data, ("5 7").data]
    [0, 1, 5, 9] [0, 1, 5, 8] [0, 1, 5, 7]
    (by decide) (by decide) (by decide) (by decide) (by decide) (by decide)
    (by decide) (by decide) (by decide)
  exact h.1

end TurboTools
